import Mathlib

/-!
Verification development for the go-graphql-client repository.

We give a shallow embedding, in Lean, of the core of the library:
the tag parser (`internal/tagparser`), the streaming GraphQL JSON decoder
(`pkg/jsonutil/graphql.go`), the selection-document writer
(`query_writer.go`) and the arguments writer (`queryArguments` and friends).

Go strings are modelled as `List Char` (sequences of code points).  All the
byte slicings performed by the source happen directly after an ASCII
prefix, where byte offsets and code-point offsets agree, so this model is
faithful for the operations used.  Go values manipulated through
`reflect.Value` are modelled by a deep universe `GoVal` of value trees
together with paths (`GoPath`) that play the role of addressable
`reflect.Value` references into the caller's tree.
-/

set_option maxHeartbeats 1600000

namespace GoGraphQL

/-! ## Go string helpers -/

/-- `unicode.IsSpace` from the Go standard library: the Unicode White_Space
property.  (Full code-point table, as used by `strings.TrimSpace`.) -/
def goIsSpace (c : Char) : Bool :=
  c = '\t' ∨ c = '\n' ∨ c = (Char.ofNat 11) ∨ c = (Char.ofNat 12) ∨ c = '\r' ∨ c = ' ' ∨
  c = (Char.ofNat 0x85) ∨ c = (Char.ofNat 0xA0) ∨ c = (Char.ofNat 0x1680) ∨
  (0x2000 ≤ c.toNat ∧ c.toNat ≤ 0x200A) ∨
  c = (Char.ofNat 0x2028) ∨ c = (Char.ofNat 0x2029) ∨ c = (Char.ofNat 0x202F) ∨
  c = (Char.ofNat 0x205F) ∨ c = (Char.ofNat 0x3000)

/-- `strings.TrimSpace`: drop leading and trailing white space. -/
def trimSpace (l : List Char) : List Char :=
  ((l.dropWhile goIsSpace).reverse.dropWhile goIsSpace).reverse

/-- `strings.HasPrefix`. -/
def hasPre (l pre : List Char) : Bool :=
  pre.isPrefixOf l

/-- `strings.Index` for a single character: index of the first occurrence. -/
def firstIdx (c : Char) : List Char → Option Nat
  | [] => none
  | x :: xs => if x = c then some 0 else (firstIdx c xs).map (· + 1)

/-- `strings.LastIndex` for a single character: index of the last occurrence. -/
def lastIdx (c : Char) (l : List Char) : Option Nat :=
  (firstIdx c l.reverse).map (fun i => l.length - 1 - i)

/-- `strings.EqualFold`, restricted to the ASCII fragment used by the
library (Go performs simple Unicode case folding; for ASCII the two
agree). -/
def goEqualFold (a b : List Char) : Bool :=
  a.map Char.toLower = b.map Char.toLower

/-! ## Tag parser (`internal/tagparser/ParseGraphQLTag`) -/

/-- `tagparser.ParsedTag`. -/
structure ParsedTag where
  fieldName : List Char
  arguments : List Char
  aliasName : List Char
  isFragment : Bool
  typeName : List Char
deriving DecidableEq, Repr

instance : Inhabited ParsedTag := ⟨⟨[], [], [], false, []⟩⟩

/-- `tagparser.ParseGraphQLTag`.  The Go function returns
`(ParsedTag, error)`; the error result is `nil` on every path, which we
model by the second component always being `none`. -/
def parseGraphQLTag (tag0 : List Char) : ParsedTag × Option String :=
  let tag := trimSpace tag0
  if tag = [] then (default, none)
  else if tag = ['-'] then ({ (default : ParsedTag) with fieldName := ['-'] }, none)
  else if hasPre tag ['.', '.', '.'] then
    let remaining := trimSpace (tag.drop 3)
    let tn := if hasPre remaining ['o', 'n', ' '] then trimSpace (remaining.drop 3) else []
    ({ fieldName := [], arguments := [], aliasName := [], isFragment := true, typeName := tn }, none)
  else
    let argsFieldPart : List Char × List Char :=
      match firstIdx '(' tag with
      | some parenIdx =>
        let args :=
          match lastIdx ')' tag with
          | some closeIdx =>
            if parenIdx < closeIdx then (tag.drop (parenIdx + 1)).take (closeIdx - parenIdx - 1)
            else []
          | none => []
        (args, trimSpace (tag.take parenIdx))
      | none => ([], tag)
    let args := argsFieldPart.1
    let fieldPart := argsFieldPart.2
    match firstIdx ':' fieldPart with
    | some colonIdx =>
      ({ fieldName := trimSpace (fieldPart.drop (colonIdx + 1)), arguments := args,
         aliasName := trimSpace (fieldPart.take colonIdx), isFragment := false, typeName := [] }, none)
    | none =>
      ({ fieldName := trimSpace fieldPart, arguments := args, aliasName := [],
         isFragment := false, typeName := [] }, none)

/-- Convenience wrapper taking a Lean `String`. -/
def parseTagStr (tag : String) : ParsedTag × Option String :=
  parseGraphQLTag tag.toList

/-! ## JSON tokens

The decoder sits on top of `encoding/json.Decoder` used as a tokenizer
(with `UseNumber()`).  We model the token stream as a list.  Numeric
tokens are restricted to integers, which covers every input the claims
are about.  `traw` is not an input token: it models the `json.RawMessage`
produced by `readNextToken` when it slurps one complete JSON value. -/

inductive Tok where
  | objStart | objEnd | arrStart | arrEnd
  | tstring (s : String)
  | tnumber (n : Int)
  | tbool (b : Bool)
  | tnull
  | traw (body : List Tok)
deriving Repr

/-! ## The Go value universe

A deep embedding of the fragment of Go's value universe the library
manipulates through `reflect`:
strings, ints, float64, bool, `json.RawMessage`, pointers, slices,
two-element arrays (`[2]any`), the empty interface, maps (only ever hit
as an unsupported kind) and structs.  Struct types carry a `StructMeta`
recording the capabilities the library detects by interface assertion:

* `gqlTypeName = some n` models “the type implements
  `types.GraphQLType` and its `GetGraphQLType()` method returns `n`”
  (modelled as a per-type constant, which is how every implementation in
  the repository behaves);
* `isWrapper` models “the type implements `GetGraphQLWrapped()`”, whose
  conventional contract (documented in `jsonutil`) is that the method
  returns the exported field named `Value`;
* `jsonUnmarshaler` models “`*T` implements `json.Unmarshaler`”.
  Arbitrary custom `UnmarshalJSON` bodies are not representable; the
  decoder model reports a model-level error if a scalar is ever decoded
  into such a struct (no claim exercises this).
-/

structure StructMeta where
  sname : String
  gqlTypeName : Option String
  isWrapper : Bool
  jsonUnmarshaler : Bool
deriving DecidableEq, Repr

/-- A plain struct (no capabilities), the common case. -/
def plainMeta (n : String) : StructMeta :=
  { sname := n, gqlTypeName := none, isWrapper := false, jsonUnmarshaler := false }

/-- Declaration-side data of one struct field: Go identifier, `graphql`
tag (`none` when absent), raw `scalar` tag value (`""` when absent, as
`Tag.Get` returns), anonymous (embedded) flag and exported flag. -/
structure GoFieldSig where
  fname : String
  gtag : Option String
  stag : String
  anon : Bool
  exported : Bool
deriving DecidableEq, Repr

/-- An ordinary exported field with a `graphql` tag. -/
def fld (name : String) (tag : Option String) : GoFieldSig :=
  { fname := name, gtag := tag, stag := "", anon := false, exported := true }

inductive GoTy where
  | stringT | intT | float64T | boolT | rawMessageT | ifaceT
  | ptrT (elem : GoTy)
  | sliceT (elem : GoTy)
  | arr2T (elem : GoTy)
  | mapT (key val : GoTy)
  | structT (meta : StructMeta) (fields : List (GoFieldSig × GoTy))
deriving Repr

inductive GoVal where
  | vstring (s : String)
  | vint (n : Int)
  | vfloat (mantissa : Int)
  | vbool (b : Bool)
  | vraw (body : List Tok)
  | vptr (elem : GoTy) (pointee : Option GoVal)
  | vslice (elem : GoTy) (elems : Option (List GoVal))
  | varr2 (elem : GoTy) (left right : GoVal)
  | viface (held : Option GoVal)
  | vmap (key val : GoTy) (entries : Option (List (GoVal × GoVal)))
  | vstruct (meta : StructMeta) (fields : List (GoFieldSig × GoTy × GoVal))
deriving Repr

namespace GoVal

/-- The `reflect.Type` of a value (always defined: every constructor
carries enough type information). -/
def tyOf : GoVal → GoTy
  | vstring _ => .stringT
  | vint _ => .intT
  | vfloat _ => .float64T
  | vbool _ => .boolT
  | vraw _ => .rawMessageT
  | vptr e _ => .ptrT e
  | vslice e _ => .sliceT e
  | varr2 e _ _ => .arr2T e
  | viface _ => .ifaceT
  | vmap k v _ => .mapT k v
  | vstruct m fs => .structT m (fs.map (fun f => (f.1, f.2.1)))

end GoVal

/-- `reflect.Zero(t)`: the zero value of a type. -/
def zeroVal : GoTy → GoVal
  | .stringT => .vstring ""
  | .intT => .vint 0
  | .float64T => .vfloat 0
  | .boolT => .vbool false
  | .rawMessageT => .vraw []
  | .ifaceT => .viface none
  | .ptrT e => .vptr e none
  | .sliceT e => .vslice e none
  | .arr2T e => .varr2 e (zeroVal e) (zeroVal e)
  | .mapT k v => .vmap k v none
  | .structT m fs => .vstruct m (zeroFields fs)
where
  zeroFields : List (GoFieldSig × GoTy) → List (GoFieldSig × GoTy × GoVal)
    | [] => []
    | (sig, t) :: rest => (sig, t, zeroVal t) :: zeroFields rest

/-! ## Paths: addressable `reflect.Value` references

A `reflect.Value` obtained from the decode target is, operationally, an
address inside the caller's value tree.  We model it as a path from the
root of the tree.  An *invalid* `reflect.Value` (`reflect.Value{}`) is
modelled as `Option.none` wherever the source can produce one. -/

inductive PStep where
  | sfield (i : Nat)
  | sderef
  | sifaceElem
  | sindex (i : Nat)
  | spairLeft
  | spairRight
deriving DecidableEq, Repr

abbrev GoPath := List PStep

/-- Read the value at a path.  `none` when the path does not denote a
location of the tree (never the case for paths the decoder builds). -/
def getPath : GoVal → GoPath → Option GoVal
  | v, [] => some v
  | .vstruct _ fs, .sfield i :: p => (fs.get? i).bind fun f => getPath f.2.2 p
  | .vptr _ (some w), .sderef :: p => getPath w p
  | .viface (some w), .sifaceElem :: p => getPath w p
  | .vslice _ (some es), .sindex i :: p => (es.get? i).bind fun w => getPath w p
  | .varr2 _ a _, .spairLeft :: p => getPath a p
  | .varr2 _ _ b, .spairRight :: p => getPath b p
  | _, _ :: _ => none

/-- Write a value at a path (the model of `reflect.Value.Set` through a
reference).  Total: an invalid path leaves the tree unchanged (the
decoder only writes through paths it obtained by reading). -/
def setPath : GoVal → GoPath → GoVal → GoVal
  | _, [], w => w
  | .vstruct m fs, .sfield i :: p, w =>
    match fs.get? i with
    | some f => .vstruct m (fs.set i (f.1, f.2.1, setPath f.2.2 p w))
    | none => .vstruct m fs
  | .vptr e (some u), .sderef :: p, w => .vptr e (some (setPath u p w))
  | .viface (some u), .sifaceElem :: p, w => .viface (some (setPath u p w))
  | .vslice e (some es), .sindex i :: p, w =>
    match es.get? i with
    | some u => .vslice e (some (es.set i (setPath u p w)))
    | none => .vslice e (some es)
  | .varr2 e a b, .spairLeft :: p, w => .varr2 e (setPath a p w) b
  | .varr2 e a b, .spairRight :: p, w => .varr2 e a (setPath b p w)
  | v, _ :: _, _ => v

/-! ## Capability introspection (`internal/reflectutil`) -/

/-- `reflectutil.IsTrue` (`strconv.ParseBool` ignoring the error). -/
def isTrue (s : String) : Bool :=
  s = "1" ∨ s = "t" ∨ s = "T" ∨ s = "TRUE" ∨ s = "true" ∨ s = "True"

/-- `reflectutil.ImplementsGraphQLType`, together with the constant name
the implementation's `GetGraphQLType()` method reports.  In this universe
only struct types implement `types.GraphQLType` (with a value receiver,
hence `*T` implements whenever `T` does). -/
def gqlNameOfTy : GoTy → Option String
  | .structT m _ => m.gqlTypeName
  | .ptrT t => gqlNameOfTy t
  | _ => none

def implementsGraphQLType (t : GoTy) : Bool :=
  (gqlNameOfTy t).isSome

/-- `reflectutil.GetGraphQLType(v, t)`: rejects an invalid value and a
nil pointer/interface (including a nil pointer hidden in an interface),
otherwise reports the type's constant GraphQL name. -/
def getGraphQLType (v : Option GoVal) (t : GoTy) : Option String :=
  if !implementsGraphQLType t then none
  else
    match v with
    | none => none
    | some (.vptr _ none) => none
    | some (.viface none) => none
    | some (.viface (some (.vptr _ none))) => none
    | some _ => gqlNameOfTy t

/-- `reflectutil.GetGraphQLTypeFromType`: builds `reflect.New(t.Elem())`
for a pointer type or `reflect.Zero(t)` otherwise and asks it; with
constant per-type names this is just the name. -/
def getGraphQLTypeFromType (t : GoTy) : Option String :=
  if implementsGraphQLType t then gqlNameOfTy t else none

/-- Fully dereference pointers and interfaces of a *value*; `none` for a
nil hop (`reflectutil.UnwrapToConcreteValue` on values). -/
def unwrapConcrete : GoVal → Option GoVal
  | .vptr _ none => none
  | .vptr _ (some w) => unwrapConcrete w
  | .viface none => none
  | .viface (some w) => unwrapConcrete w
  | v => some v

/-- `reflectutil.IsWrapperType`: unwrap pointers/interfaces, then check
for the `GetGraphQLWrapped` method (a struct capability here). -/
def isWrapperType (v : Option GoVal) : Bool :=
  match v with
  | none => false
  | some w =>
    match unwrapConcrete w with
    | some (.vstruct m _) => m.isWrapper
    | _ => false

/-- Index of the first field with a given Go identifier
(`reflect.Value.FieldByName`, restricted to direct fields, which is how
every wrapper in the repository declares `Value`). -/
def fieldIdxByName (fs : List (GoFieldSig × GoTy × GoVal)) (n : String) : Option Nat :=
  go fs 0
where
  go : List (GoFieldSig × GoTy × GoVal) → Nat → Option Nat
    | [], _ => none
    | f :: rest, i => if f.1.fname = n then some i else go rest (i + 1)

/-- `reflectutil.UnwrapValue`: call `GetGraphQLWrapped()` on a wrapper.
By the library's documented convention the method returns the `Value`
field, which is how we model the call. -/
def unwrapValue (v : Option GoVal) : Option GoVal :=
  if !isWrapperType v then none
  else
    match v.bind unwrapConcrete with
    | some (.vstruct _ fs) => (fieldIdxByName fs "Value").bind fun i => (fs.get? i).map (·.2.2)
    | _ => none

/-! ## Decoder helpers (`pkg/jsonutil/graphql.go`) -/

/-- `hasScalarTag`. -/
def hasScalarTag (sig : GoFieldSig) : Bool :=
  isTrue sig.stag

/-- `keyHasGraphQLName`. -/
def keyHasGraphQLName (value : String) (name : String) : Bool :=
  let pr := parseGraphQLTag value.toList
  match pr.2 with
  | some _ => false
  | none =>
    let parsed := pr.1
    if parsed.isFragment then false
    else if parsed.aliasName ≠ [] then parsed.aliasName = name.toList
    else parsed.fieldName = name.toList

/-- `hasGraphQLName`: does struct field `sig : declTy` (current value
`v`) answer to GraphQL name `name`? -/
def hasGraphQLName (sig : GoFieldSig) (declTy : GoTy) (v : GoVal) (name : String) : Bool :=
  let fromTy : Option String :=
    if implementsGraphQLType declTy then getGraphQLType (some v) declTy else none
  match fromTy with
  | some value => keyHasGraphQLName value name
  | none =>
    match sig.gtag with
    | some value => keyHasGraphQLName value name
    | none => goEqualFold sig.fname.toList name.toList

/-- `keyForGraphQLFragment`. -/
def keyForGraphQLFragment (value : String) : Bool :=
  let pr := parseGraphQLTag value.toList
  match pr.2 with
  | some _ => false
  | none => pr.1.isFragment

/-- `isGraphQLFragment`. -/
def isGraphQLFragment (sig : GoFieldSig) : Bool :=
  match sig.gtag with
  | none => false
  | some value => keyForGraphQLFragment value

/-- `extractFragmentTypename`. -/
def extractFragmentTypename (tag : String) : String :=
  let pr := parseGraphQLTag tag.toList
  match pr.2 with
  | some _ => ""
  | none => if !pr.1.isFragment then "" else String.mk pr.1.typeName

/-- `fieldByGraphQLName`: first exported field of the struct matching the
GraphQL name; returns its index and its `scalar` tag. -/
def fieldByGraphQLName (fs : List (GoFieldSig × GoTy × GoVal)) (name : String) :
    Option Nat × Bool :=
  go fs 0
where
  go : List (GoFieldSig × GoTy × GoVal) → Nat → Option Nat × Bool
    | [], _ => (none, false)
    | f :: rest, i =>
      if !f.1.exported then go rest (i + 1)
      else if hasGraphQLName f.1 f.2.1 f.2.2 name then (some i, hasScalarTag f.1)
      else go rest (i + 1)

/-- The string key of an ordered-map pair: `pair.Index(0).Interface().(string)`.
The Go type assertion panics on a non-string key; the repository's
ordered maps always carry string keys, and the model treats a non-string
key as not matching. -/
def pairKeyString : GoVal → Option String
  | .vstring s => some s
  | .viface (some (.vstring s)) => some s
  | _ => none

/-- `orderedMapValueByGraphQLName`: the relative path (below the slice)
of the value of the first pair whose key matches. -/
def orderedMapValueByGraphQLName (es : List GoVal) (name : String) : Option GoPath :=
  go es 0
where
  go : List GoVal → Nat → Option GoPath
    | [], _ => none
    | e :: rest, i =>
      match e with
      | .varr2 _ k _ =>
        match pairKeyString k with
        | some key => if keyHasGraphQLName key name then some [.sindex i, .spairRight] else go rest (i + 1)
        | none => go rest (i + 1)
      | _ => go rest (i + 1)

/-- `isOrderedMap`: a slice whose element type is a two-element array. -/
def isOrderedMapTy : GoTy → Bool
  | .sliceT (.arr2T _) => true
  | _ => false

/-- Render a type name the way `fmt`'s `%v` renders a `reflect.Type`
(only as far as error messages need it). -/
def tyRender : GoTy → String
  | .stringT => "string"
  | .intT => "int"
  | .float64T => "float64"
  | .boolT => "bool"
  | .rawMessageT => "json.RawMessage"
  | .ifaceT => "interface {}"
  | .ptrT e => "*" ++ tyRender e
  | .sliceT e => "[]" ++ tyRender e
  | .arr2T e => "[2]" ++ tyRender e
  | .mapT k v => "map[" ++ tyRender k ++ "]" ++ tyRender v
  | .structT m _ => m.sname

/-! ## `unmarshalValue` and scalar conversion

`unmarshalValue` re-marshals the token and `json.Unmarshal`s it into a
fresh `reflect.New` of the destination's type (or, for an interface
destination holding a concrete value, of that concrete type), then
`Set`s the destination.  `unmarshalScalar` models that round trip for
the universe's types.  Custom `UnmarshalJSON` methods are not
representable; decoding a scalar into a struct with the
`jsonUnmarshaler` capability is a model-level error (no claim uses it). -/

def unmarshalScalarCore : Tok → GoTy → Except String GoVal
  | .tnull, t =>
    match t with
    | .rawMessageT => .ok (.vraw [.tnull])
    | .structT m fs =>
      if m.jsonUnmarshaler then .error "model: custom json.Unmarshaler not modelled"
      else .ok (zeroVal (.structT m fs))
    | t => .ok (zeroVal t)
  | .tstring s, t =>
    match t with
    | .stringT => .ok (.vstring s)
    | .rawMessageT => .ok (.vraw [.tstring s])
    | .ifaceT => .ok (.viface (some (.vstring s)))
    | .ptrT e => (unmarshalScalarCore (.tstring s) e).map fun w => .vptr e (some w)
    | .structT m fs =>
      if m.jsonUnmarshaler then .error "model: custom json.Unmarshaler not modelled"
      else .error ("json: cannot unmarshal string into Go value of type " ++ tyRender (.structT m fs))
    | t => .error ("json: cannot unmarshal string into Go value of type " ++ tyRender t)
  | .tnumber n, t =>
    match t with
    | .intT => .ok (.vint n)
    | .float64T => .ok (.vfloat n)
    | .rawMessageT => .ok (.vraw [.tnumber n])
    | .ifaceT => .ok (.viface (some (.vfloat n)))
    | .ptrT e => (unmarshalScalarCore (.tnumber n) e).map fun w => .vptr e (some w)
    | .structT m fs =>
      if m.jsonUnmarshaler then .error "model: custom json.Unmarshaler not modelled"
      else .error ("json: cannot unmarshal number into Go value of type " ++ tyRender (.structT m fs))
    | t => .error ("json: cannot unmarshal number into Go value of type " ++ tyRender t)
  | .tbool b, t =>
    match t with
    | .boolT => .ok (.vbool b)
    | .rawMessageT => .ok (.vraw [.tbool b])
    | .ifaceT => .ok (.viface (some (.vbool b)))
    | .ptrT e => (unmarshalScalarCore (.tbool b) e).map fun w => .vptr e (some w)
    | .structT m fs =>
      if m.jsonUnmarshaler then .error "model: custom json.Unmarshaler not modelled"
      else .error ("json: cannot unmarshal bool into Go value of type " ++ tyRender (.structT m fs))
    | t => .error ("json: cannot unmarshal bool into Go value of type " ++ tyRender t)
  | _, _ => .error "model: delimiter token reached unmarshalValue"

/-- The full scalar conversion, extending the core with raw-message
tokens (which re-parse the captured span). -/
def unmarshalScalar (tok : Tok) (t : GoTy) : Except String GoVal :=
  match tok with
  | .traw body =>
    match t, body with
    | .rawMessageT, _ => .ok (.vraw body)
    | t, [one] =>
      match one with
      | .tstring s => unmarshalScalarCore (.tstring s) t
      | .tnumber n => unmarshalScalarCore (.tnumber n) t
      | .tbool b => unmarshalScalarCore (.tbool b) t
      | .tnull => unmarshalScalarCore .tnull t
      | _ => .error "model: structured raw value into non-RawMessage not modelled"
    | _, _ => .error "model: structured raw value into non-RawMessage not modelled"
  | tok => unmarshalScalarCore tok t

/-- JSON's native choice of Go types when unmarshaling into an empty
`interface{}` destination (`json.Unmarshal(b, v.Addr().Interface())`
with `v` an empty interface): strings, `float64` numbers, bools, `nil`. -/
def nativeUnmarshal : Tok → Except String GoVal
  | .tstring s => .ok (.viface (some (.vstring s)))
  | .tnumber n => .ok (.viface (some (.vfloat n)))
  | .tbool b => .ok (.viface (some (.vbool b)))
  | .tnull => .ok (.viface none)
  | .traw [one] =>
    match one with
    | .tstring s => .ok (.viface (some (.vstring s)))
    | .tnumber n => .ok (.viface (some (.vfloat n)))
    | .tbool b => .ok (.viface (some (.vbool b)))
    | .tnull => .ok (.viface none)
    | _ => .error "model: structured raw value into interface not modelled"
  | _ => .error "model: structured raw value into interface not modelled"

/-- `unmarshalValue(value, v)` with `v` the location `p` of the tree. -/
def unmarshalValue (tok : Tok) (tree : GoVal) (p : GoPath) : Except String GoVal :=
  match getPath tree p with
  | none => .error "model: write through invalid reference"
  | some v =>
    match v with
    | .viface none => (nativeUnmarshal tok).map fun w => setPath tree p w
    | .viface (some w) =>
      (unmarshalScalar tok (GoVal.tyOf w)).map fun r => setPath tree p (.viface (some r))
    | _ => (unmarshalScalar tok (GoVal.tyOf v)).map fun r => setPath tree p r

/-! ## Token-stream helpers -/

/-- Consume one complete JSON value (`tokenizer.Decode(&data)` into a
`json.RawMessage`): the balanced token span starting the stream. -/
def takeBal : List Tok → Nat → List Tok → Except String (List Tok × List Tok)
  | [], _, _ => .error "unexpected EOF"
  | t :: rest, depth, acc =>
    let depth' : Nat :=
      match t with
      | .objStart | .arrStart => depth + 1
      | .objEnd | .arrEnd => depth - 1
      | _ => depth
    if depth' = 0 then .ok ((t :: acc).reverse, rest) else takeBal rest depth' (t :: acc)

def takeOneValue : List Tok → Except String (List Tok × List Tok)
  | [] => .error "EOF"
  | t :: rest =>
    match t with
    | .tstring _ | .tnumber _ | .tbool _ | .tnull => .ok ([t], rest)
    | .objStart | .arrStart => takeBal rest 1 [t]
    | _ => .error "invalid character looking for beginning of value"

/-! ## Decoder state machine

`decoder` state: the target tree, the parse-state stack, the parallel
value stacks `vs` and their `fragmentTypes`, and the current
typename/key.  Go's stacks append at the slice end; a Lean list keeps
its top at the head (`Top()` = `headD none`, `Pop()` = `drop 1`,
push = cons), an order-reversal that is otherwise faithful. -/

inductive Delim where
  | dObj | dArr
deriving DecidableEq, Repr

abbrev Stack := List (Option GoPath)

structure DecState where
  tree : GoVal
  parseState : List Delim
  vs : List Stack
  fragmentTypes : List String
  currentTypename : String
  currentKey : String
deriving Repr

/-- `d.state()`: top of the parse-state stack (`none` for Go's `0`). -/
def stateOf (st : DecState) : Option Delim :=
  st.parseState.head?

/-- `d.pushState`. -/
def pushStateFn (d : Delim) (st : DecState) : DecState :=
  { st with parseState := d :: st.parseState }

/-- `d.popState` (the Go code requires a non-empty stack; `drop` is
total). -/
def popStateFn (st : DecState) : DecState :=
  { st with parseState := st.parseState.drop 1 }

/-- `d.popAllVs` on the two parallel collections: pop every stack, keep
the non-empty ones together with their fragment type (reading the type
list in parallel models the source's `i < len(d.fragmentTypes)` guard,
with `""` when out of bounds). -/
def popAllVsPair : List Stack → List String → List Stack × List String
  | [], _ => ([], [])
  | s :: ss, ts =>
    let t := ts.headD ""
    let s' := s.drop 1
    let r := popAllVsPair ss (ts.drop 1)
    if s' ≠ [] then (s' :: r.1, t :: r.2) else r

def popAllVs (st : DecState) : DecState :=
  let r := popAllVsPair st.vs st.fragmentTypes
  { st with vs := r.1, fragmentTypes := r.2 }

/-- Extend a path through pointers and interfaces down to the concrete
value (`reflectutil.UnwrapToConcreteValue` on a reference); `none` on a
nil hop or an invalid reference. -/
def unwrapValPath : GoVal → GoPath → Option GoPath
  | .vptr _ none, _ => none
  | .vptr _ (some w), p => unwrapValPath w (p ++ [.sderef])
  | .viface none, _ => none
  | .viface (some w), p => unwrapValPath w (p ++ [.sifaceElem])
  | _, p => some p

def unwrapPath (tree : GoVal) (po : Option GoPath) : Option GoPath :=
  po.bind fun p => (getPath tree p).bind fun v => unwrapValPath v p

/-- Extend a path through pointers only (`for f.Kind() == reflect.Ptr`
in `findFieldsForKey`'s ordered-map branch); a nil pointer leaves an
invalid reference. -/
def ptrOnlyUnwrapVal : GoVal → GoPath → Option GoPath
  | .vptr _ (some w), p => ptrOnlyUnwrapVal w (p ++ [.sderef])
  | .vptr _ none, _ => none
  | _, p => some p

/-- `reflectutil.UnwrapValueField` on a reference: for a wrapper value,
the path of its conventional `Value` field. -/
def unwrapValueFieldPath (tree : GoVal) (p : GoPath) : Option GoPath :=
  if !isWrapperType (getPath tree p) then none
  else
    match unwrapPath tree (some p) with
    | some cp =>
      match getPath tree cp with
      | some (.vstruct _ fs) => (fieldIdxByName fs "Value").map fun i => cp ++ [.sfield i]
      | _ => none
    | none => none

/-- Total size of a value tree; used only to hand the breadth-first
fragment discovery enough fuel (one unit per value node, so the number
of discovery steps, which visits distinct nodes, never exceeds it). -/
def gsize : GoVal → Nat
  | .vptr _ (some w) => 1 + gsize w
  | .viface (some w) => 1 + gsize w
  | .vslice _ (some es) => 1 + gsizeList es
  | .varr2 _ a b => 1 + gsize a + gsize b
  | .vmap _ _ (some es) => 1 + gsizePairs es
  | .vstruct _ fs => 1 + gsizeFields fs
  | _ => 1
where
  gsizeList : List GoVal → Nat
    | [] => 0
    | v :: vs => gsize v + gsizeList vs
  gsizePairs : List (GoVal × GoVal) → Nat
    | [] => 0
    | v :: vs => gsize v.1 + gsize v.2 + gsizePairs vs
  gsizeFields : List (GoFieldSig × GoTy × GoVal) → Nat
    | [] => 0
    | f :: fs => gsize f.2.2 + gsizeFields fs

/-- One struct's contribution to fragment discovery at object start:
each field whose tag is a GraphQL fragment, and each anonymous field
without one, yields a new singleton stack (with its fragment type name,
`""` for plain embeds). -/
def structDiscover (cp : GoPath) (fs : List (GoFieldSig × GoTy × GoVal)) :
    List (GoPath × String) :=
  go fs 0
where
  go : List (GoFieldSig × GoTy × GoVal) → Nat → List (GoPath × String)
    | [], _ => []
    | f :: rest, i =>
      if isGraphQLFragment f.1 then
        (cp ++ [.sfield i], extractFragmentTypename (f.1.gtag.getD "")) :: go rest (i + 1)
      else if f.1.anon then
        (cp ++ [.sfield i], "") :: go rest (i + 1)
      else go rest (i + 1)

/-- One ordered map's contribution to fragment discovery: each pair
whose key parses as a fragment. -/
def orderedMapDiscover (cp : GoPath) (es : List GoVal) : List (GoPath × String) :=
  go es 0
where
  go : List GoVal → Nat → List (GoPath × String)
    | [], _ => []
    | e :: rest, i =>
      match e with
      | .varr2 _ k _ =>
        match pairKeyString k with
        | some key =>
          if keyForGraphQLFragment key then
            (cp ++ [.sindex i, .spairRight], extractFragmentTypename key) :: go rest (i + 1)
          else go rest (i + 1)
        | none => go rest (i + 1)
      | _ => go rest (i + 1)

/-- The breadth-first fragment/embedded-struct discovery loop of
`decodeObjectStart`.  Newly discovered values join both the result list
(in discovery order, matching the order in which the source appends to
`d.vs`/`d.fragmentTypes`) and the frontier for further exploration.
`fuel` only bounds the number of loop iterations; callers pass at least
`gsize tree + frontier length`, which the loop can never exhaust since
every iteration consumes a frontier entry and enqueues only strictly
smaller subvalues. -/
def bfsDiscover (tree : GoVal) : Nat → List (Option GoPath) → List (GoPath × String)
  | 0, _ => []
  | _, [] => []
  | fuel + 1, po :: rest =>
    match unwrapPath tree po with
    | none => bfsDiscover tree fuel rest
    | some cp =>
      let found : List (GoPath × String) :=
        match getPath tree cp with
        | some (.vstruct _ fs) => structDiscover cp fs
        | some (.vslice (.arr2T _) (some es)) => orderedMapDiscover cp es
        | _ => []
      found ++ bfsDiscover tree fuel (rest ++ found.map (fun d => some d.1))

/-- The pointer-allocation pass of `decodeObjectStart`: any stack top
that is a nil pointer gets a fresh zero value (non-recursively). -/
def allocTops (tree : GoVal) : List Stack → GoVal
  | [] => tree
  | s :: ss =>
    let tree' :=
      match s.headD none with
      | some p =>
        match getPath tree p with
        | some (.vptr e none) => setPath tree p (.vptr e (some (zeroVal e)))
        | _ => tree
      | none => tree
    allocTops tree' ss

/-- `decodeObjectStart`. -/
def decodeObjectStart (st : DecState) : DecState :=
  let st := pushStateFn .dObj st
  let tree' := allocTops st.tree st.vs
  let frontier := st.vs.map (fun s => s.headD none)
  let discovered := bfsDiscover tree' (gsize tree' + frontier.length + 1) frontier
  { st with
    tree := tree'
    vs := st.vs ++ discovered.map (fun d => [some d.1])
    fragmentTypes := st.fragmentTypes ++ discovered.map (fun d => d.2) }

/-- `decodeArrayStart`.  Faithful to the source's `switch v.Len()`:
length 0 installs a fresh zero template, length 1 keeps the existing
element as template, length exactly 2 is the hard error — and any
length ≥ 3 falls through every case, leaving the freshly made *empty*
slice (see claim C2). -/
def decodeArrayStart (st : DecState) : Except String DecState :=
  let st := pushStateFn .dArr st
  (go st.tree st.vs).map fun tree' => { st with tree := tree' }
where
  go (tree : GoVal) : List Stack → Except String GoVal
    | [] => .ok tree
    | s :: ss => do
      let tree' ←
        match unwrapPath tree (s.headD none) with
        | none => pure tree
        | some cp =>
          match getPath tree cp with
          | some (.vslice e esOpt) =>
            let es := esOpt.getD []
            match es with
            | [] => pure (setPath tree cp (.vslice e (some [zeroVal e])))
            | [e0] => pure (setPath tree cp (.vslice e (some [e0])))
            | [_, _] =>
              Except.error ("template slice can only have 1 item, got " ++ toString es.length)
            | _ => pure (setPath tree cp (.vslice e (some [])))
          | _ => pure tree
      go tree' ss

/-- `copyTemplate`.  Under value semantics the defensive
`copyOrderedMap` is the identity; a native map template is the
documented hard error. -/
def copyTemplate (v : GoVal) : Except String GoVal :=
  if isOrderedMapTy (GoVal.tyOf v) then .ok v
  else
    match v with
    | .vmap k w _ =>
      .error ("unsupported template type `" ++ tyRender (.mapT k w) ++
        "`, use [][2]any for ordered map instead")
    | _ => .ok v

/-- `decodeArrayValue`: append a copy of the template (element 0) to
every slice-shaped stack top and push the fresh last element; error when
no stack is slice-shaped.  Go's `v.Index(0)` panics when the slice is
empty (reachable through the C2 bug); the model returns the panic text
as an error. -/
def decodeArrayValue (st : DecState) : Except String DecState := do
  let r ← go st.tree st.vs
  if !r.2.2 then
    .error ("slice doesn't exist in any of " ++ toString st.vs.length ++ " places to unmarshal")
  else
    .ok { st with tree := r.1, vs := r.2.1 }
where
  go (tree : GoVal) : List Stack → Except String (GoVal × List Stack × Bool)
    | [] => .ok (tree, [], false)
    | s :: ss => do
      let cp0 := unwrapPath tree (s.headD none)
      let cp :=
        match cp0 with
        | some p =>
          match unwrapValueFieldPath tree p with
          | some q => some q
          | none => some p
        | none => none
      match cp.bind (getPath tree) with
      | some (.vslice e esOpt) =>
        let es := esOpt.getD []
        match es with
        | [] => .error "reflect: slice index out of range"
        | e0 :: _ => do
          let copied ← (copyTemplate e0).mapError
            (fun msg => "failed to copy template: " ++ msg)
          let p := cp.getD []
          let tree' := setPath tree p (.vslice e (some (es ++ [copied])))
          let f := some (p ++ [PStep.sindex es.length])
          let r ← go tree' ss
          .ok (r.1, (f :: s) :: r.2.1, true)
      | _ => do
        let r ← go tree ss
        .ok (r.1, ((none : Option GoPath) :: s) :: r.2.1, r.2.2)

/-- The scalar-writing loop of `decodeScalarValue`: write the token into
every valid (non-discarded) stack top. -/
def writeScalars (tok : Tok) (tree : GoVal) : List Stack → Except String GoVal
  | [] => .ok tree
  | s :: ss =>
    match s.headD none with
    | none => writeScalars tok tree ss
    | some p => do
      let tree' ← unmarshalValue tok tree p
      writeScalars tok tree' ss

/-- `decodeScalarValue`: capture `__typename` (string tokens only), then
write into every stack and pop all stacks. -/
def decodeScalarValue (tok : Tok) (st : DecState) : Except String DecState :=
  let st :=
    if st.currentKey = "__typename" then
      match tok with
      | .tstring s => { st with currentTypename := s }
      | _ => st
    else st
  (writeScalars tok st.tree st.vs).map fun tree' =>
    popAllVs { st with tree := tree' }

/-- Per-stack result of `findFieldsForKey` (`fieldInfo`). -/
structure FieldInfo where
  fpath : Option GoPath
  isScalar : Bool
  fragmentMatch : Bool
deriving Repr

instance : Inhabited FieldInfo := ⟨⟨none, false, false⟩⟩

/-- `findFieldsForKey`, walking `d.vs` and `d.fragmentTypes` in
parallel; returns the per-stack field info, whether some matching
fragment has the field, and whether some resolved field has
`json.RawMessage` type. -/
def findFieldsPair (tree : GoVal) (key : String) (ctype : String) :
    List Stack → List String → List FieldInfo × Bool × Bool
  | [], _ => ([], false, false)
  | s :: ss, ts =>
    let resolved : Option GoPath × Bool × Bool :=
      match unwrapPath tree (s.headD none) with
      | none => (none, false, false)
      | some cp =>
        match getPath tree cp with
        | some (.vstruct _ fs) =>
          match fieldByGraphQLName fs key with
          | (some i, scalar) =>
            let fp := cp ++ [PStep.sfield i]
            let fp2 :=
              match unwrapValueFieldPath tree fp with
              | some q => q
              | none => fp
            let raw :=
              match getPath tree fp2 with
              | some w =>
                match GoVal.tyOf w with
                | .rawMessageT => true
                | _ => false
              | none => false
            (some fp2, scalar, raw)
          | (none, _) => (none, false, false)
        | some (.vslice _ esOpt) =>
          match orderedMapValueByGraphQLName (esOpt.getD []) key with
          | some rel =>
            (match getPath tree (cp ++ rel) with
             | some w => ptrOnlyUnwrapVal w (cp ++ rel)
             | none => none, false, false)
          | none => (none, false, false)
        | _ => (none, false, false)
    let t := ts.headD ""
    let fragMatch := if t ≠ "" ∧ ctype ≠ "" then t = ctype else true
    let fi : FieldInfo := ⟨resolved.1, resolved.2.1, fragMatch⟩
    let r := findFieldsPair tree key ctype ss (ts.drop 1)
    (fi :: r.1, (resolved.1.isSome ∧ fragMatch) ∨ r.2.1, resolved.2.2 ∨ r.2.2)

/-- `selectAndPushFields`: push each per-stack destination (discarded if
it comes from a non-matching fragment while some matching fragment has
the field); returns the new stacks and the `someFieldExist`/`isScalar`
flags. -/
def selectAndPushPair (hasMatching : Bool) :
    List Stack → List FieldInfo → List Stack × Bool × Bool
  | [], _ => ([], false, false)
  | s :: ss, fis =>
    let fi := fis.headD default
    let valid := fi.fpath.isSome
    let f := if valid ∧ ¬fi.fragmentMatch ∧ hasMatching then none else fi.fpath
    let r := selectAndPushPair hasMatching ss (fis.drop 1)
    ((f :: s) :: r.1, valid ∨ r.2.1, (valid ∧ fi.isScalar) ∨ r.2.2)

/-- `decodeObjectKey` (including `readNextToken`): resolve the key in
every stack, fail when no stack has a destination, then either slurp the
whole value as a raw message (raw/scalar) or read the next token. -/
def decodeObjectKey (key : String) (st : DecState) (toks : List Tok) :
    Except String (Tok × DecState × List Tok) := do
  let st := { st with currentKey := key }
  let found := findFieldsPair st.tree key st.currentTypename st.vs st.fragmentTypes
  let sel := selectAndPushPair found.2.1 st.vs found.1
  if !sel.2.1 then
    .error ("struct field for \"" ++ key ++ "\" doesn't exist in any of " ++
      toString st.vs.length ++ " places to unmarshal")
  else
    let st := { st with vs := sel.1 }
    if found.2.2 ∨ sel.2.2 then do
      let r ← takeOneValue toks
      .ok (.traw r.1, st, r.2)
    else
      match toks with
      | [] => .error "unexpected end of JSON input"
      | t :: rest => .ok (t, st, rest)

/-- `popLeftArrayTemplates`: trim the template at index 0 from every
list-shaped stack top.  (Go's `v.Slice(1, v.Len())` panics on an empty
slice — reachable only through the C2 bug; `List.drop` is total.) -/
def popLeftArrayTemplates (st : DecState) : DecState :=
  { st with tree := go st.tree st.vs }
where
  go (tree : GoVal) : List Stack → GoVal
    | [] => tree
    | s :: ss =>
      let tree' :=
        match unwrapPath tree (s.headD none) with
        | some cp =>
          match getPath tree cp with
          | some (.vslice e (some es)) => setPath tree cp (.vslice e (some (es.drop 1)))
          | _ => tree
        | none => tree
      go tree' ss

/-- The key / array-value pre-processing at the top of the `decode`
loop body: inside an object a non-closing token must be a key (which
also reads the value token); inside an array a non-closing token first
materializes the next element. -/
def decodeIterPre (st : DecState) (tok : Tok) (rest : List Tok) :
    Except String (Tok × DecState × List Tok) :=
  if stateOf st = some .dObj ∧ ¬(tok matches .objEnd) then
    match tok with
    | .tstring key => decodeObjectKey key st rest
    | _ => .error "unexpected non-key in JSON input"
  else if stateOf st = some .dArr ∧ ¬(tok matches .arrEnd) then
    (decodeArrayValue st).map fun st' => (tok, st', rest)
  else
    .ok (tok, st, rest)

/-- The value dispatch of the `decode` loop body (the `switch tok`). -/
def decodeIterDispatch (pre : Tok × DecState × List Tok) :
    Except String (DecState × List Tok) :=
  match pre.1 with
  | .tstring _ | .tnumber _ | .tbool _ | .tnull | .traw _ =>
    (decodeScalarValue pre.1 pre.2.1).map fun st2 => (st2, pre.2.2)
  | .objStart => .ok (decodeObjectStart pre.2.1, pre.2.2)
  | .arrStart => (decodeArrayStart pre.2.1).map fun st2 => (st2, pre.2.2)
  | .objEnd => .ok (popStateFn (popAllVs pre.2.1), pre.2.2)
  | .arrEnd => .ok (popStateFn (popAllVs (popLeftArrayTemplates pre.2.1)), pre.2.2)

/-- One iteration of the `decode` loop: read a token, pre-process keys
and array values, then dispatch on the (possibly replaced) token. -/
def decodeIter (st : DecState) (toks : List Tok) :
    Except String (DecState × List Tok) :=
  match toks with
  | [] => .error "unexpected end of JSON input"
  | tok :: rest => decodeIterPre st tok rest >>= decodeIterDispatch

/-- The `decode` loop: iterate while some value stack is live.  `fuel`
bounds the iteration count; every iteration consumes at least one token,
so `toks.length + 1` is always enough. -/
def decodeLoop : Nat → DecState → List Tok → Except String (DecState × List Tok)
  | 0, _, _ => .error "model: out of fuel"
  | fuel + 1, st, toks =>
    if st.vs = [] then .ok (st, toks)
    else do
      let r ← decodeIter st toks
      decodeLoop fuel r.1 r.2

/-- The argument of `decoder.Decode` / `UnmarshalGraphQL` (`v any`):
either not a pointer at all (its rendered type name is what `%T`
prints), a nil pointer, or a pointer to a tree. -/
inductive GoTarget where
  | nonPtr (tyName : String)
  | nilPtr (elem : GoTy)
  | ptrTo (v : GoVal)

/-- Initial decoder state for a pointer target.  For a nil pointer
`rv.Elem()` is the invalid `reflect.Value`, so the root stack holds an
invalid reference (and the tree is the inert zero value, never reached
through any valid path). -/
def initState (tgt : GoTarget) : DecState :=
  match tgt with
  | .nonPtr _ => ⟨.vstring "", [], [], [], "", ""⟩
  | .nilPtr e => ⟨zeroVal e, [], [[none]], [""], "", ""⟩
  | .ptrTo v => ⟨v, [], [[some []]], [""], "", ""⟩

/-- `decoder.Decode`: reject a non-pointer with the normal error return,
then run the loop. -/
def runDecode (tgt : GoTarget) (toks : List Tok) : Except String (GoVal × List Tok) :=
  match tgt with
  | .nonPtr n => .error ("cannot decode into non-pointer " ++ n)
  | _ =>
    (decodeLoop (toks.length + 1) (initState tgt) toks).map fun r => (r.1.tree, r.2)

/-- How `%v` prints a token, for the trailing-token error. -/
def renderTok : Tok → String
  | .objStart => "\x7b"
  | .objEnd => "\x7d"
  | .arrStart => "["
  | .arrEnd => "]"
  | .tstring s => s
  | .tnumber n => toString n
  | .tbool b => toString b
  | .tnull => "<nil>"
  | .traw _ => "raw"

/-- `UnmarshalGraphQL`: decode one value, then require end of stream. -/
def unmarshalGraphQL (toks : List Tok) (tgt : GoTarget) : Except String GoVal :=
  match runDecode tgt toks with
  | .error e => .error e
  | .ok (tree, rest) =>
    match rest with
    | [] => .ok tree
    | t :: _ => .error ("invalid token '" ++ renderTok t ++ "' after top-level value")

/-! ## Selection-document writer (`query_writer.go`) -/

/-- Modelled from the spec: the `ident` package
(`ident.ParseMixedCaps(..).ToLowerCamelCase()`) is not part of the
provided sources; per the spec the default field name is derived “by
converting the host field's identifier from capitalized-words style to
lower-camel-case”.  We model the conversion by lower-casing the leading
capital (no claim depends on its exact output). -/
def lowerCamelCase (s : String) : String :=
  match s.toList with
  | [] => ""
  | c :: rest => String.mk (c.toLower :: rest)

/-- `fieldOutput` (minus the value, which we keep alongside). -/
structure FieldOut where
  shouldSkip : Bool
  name : String
  isInline : Bool
  isScalar : Bool
deriving Repr, DecidableEq

/-- `reflectutil.ElemSafe`. -/
def elemSafe (v : Option GoVal) : Option GoVal :=
  match v with
  | some (.vptr _ w) => w
  | some (.viface w) => w
  | _ => none

/-- `reflectutil.IndexSafe`. -/
def indexSafe (v : Option GoVal) (i : Nat) : Option GoVal :=
  match v with
  | some (.vslice _ (some es)) => es.get? i
  | _ => none

/-- `processStructField`: decide skip / name / inline / scalar for one
struct field with declared type `declTy` and current value `fv`
(`none` models the invalid `reflect.Value`). -/
def processStructField (sig : GoFieldSig) (declTy : GoTy) (fv : Option GoVal) : FieldOut :=
  let fromTy : Option (Option String) :=
    -- `some r` = the GraphQLType branch was taken, with outcome `r`
    -- (`none` inside = skip because the concrete value is nil);
    -- `none` outside = branch not applicable.
    if implementsGraphQLType declTy then
      match fv with
      | none => some none
      | some (.vptr _ none) => some none
      | some (.viface none) => some none
      | some w =>
        match getGraphQLType (some w) declTy with
        | some n => some (some n)
        | none => some none
    else none
  match fromTy with
  | some none => { shouldSkip := true, name := "", isInline := false, isScalar := false }
  | r =>
    let fromSlice : Option String :=
      match declTy with
      | .sliceT e => if implementsGraphQLType e then getGraphQLTypeFromType e else none
      | _ => none
    let tagValue : Option String :=
      match r with
      | some (some n) => some n
      | _ =>
        match fromSlice with
        | some n => some n
        | none => sig.gtag
    if tagValue = some "-" then
      { shouldSkip := true, name := "", isInline := false, isScalar := false }
    else
      let inline := sig.anon ∧ tagValue.isNone
      let fieldName :=
        if inline then ""
        else
          match tagValue with
          | some n => n
          | none => lowerCamelCase sig.fname
      { shouldSkip := false, name := fieldName, isInline := inline,
        isScalar := isTrue sig.stag }

/-- The field list `writeStructQuery` iterates: the declarations with
their current values when the struct value is live, the declarations of
the type with invalid values otherwise (Go reads declarations from the
type and values through `FieldSafe`; under Go's typing both give this
list). -/
def pairsOf (t : GoTy) (v : Option GoVal) : List (GoFieldSig × GoTy × Option GoVal) :=
  match v with
  | some (.vstruct _ fs) => fs.map fun f => (f.1, f.2.1, some f.2.2)
  | _ =>
    match t with
    | .structT _ fs => fs.map fun f => (f.1, f.2, (none : Option GoVal))
    | _ => []

/-- Strip the interface layer that `reflect.ValueOf(x.Interface())`
removes. -/
def stripIface (v : GoVal) : Option GoVal :=
  match v with
  | .viface w => w
  | v => some v

/-- The type of the recursive entry point `writeQuery`; the per-kind
writers below are parameterized by it (`wq` stands for the recursive
call into `writeQuery`, exactly as the Go functions call back into
`writeQuery`). -/
abbrev WriteQ := GoTy → Option GoVal → Bool → Except String String

/-- `writeInterfaceQuery`.  `v.Interface()` on the invalid
`reflect.Value` panics in Go; the model returns the panic text. -/
def writeInterfaceQueryGen (wq : WriteQ) (v : Option GoVal) (inline : Bool) :
    Except String String :=
  match v with
  | none => .error "reflect: call of reflect.Value.Interface on zero Value"
  | some w =>
    match stripIface w with
    | none => .ok ""
    | some c =>
      let isNilHeld :=
        match c with
        | .vptr _ none => true
        | .viface none => true
        | .vslice _ none => true
        | .vmap _ _ none => true
        | _ => false
      if isNilHeld then .ok ""
      else
        (wq (GoVal.tyOf c) (some c) inline).mapError
          (fun m => "failed to write query for interface `interface {}`: " ++ m)

/-- The field loop of `writeStructQuery`; the boolean carries
`iter != 0` (whether some previous field produced output, hence whether
to emit a comma). -/
def writeStructFieldsGen (wq : WriteQ) :
    List (GoFieldSig × GoTy × Option GoVal) → Bool → Except String String
  | [], _ => .ok ""
  | (sig, fty, fv) :: rest, iterNonZero =>
    let out := processStructField sig fty fv
    if out.shouldSkip then writeStructFieldsGen wq rest iterNonZero
    else
      let comma := if iterNonZero then "," else ""
      let namePart := if out.isInline then "" else out.name
      if out.isScalar then do
        let tail ← writeStructFieldsGen wq rest true
        .ok (comma ++ namePart ++ tail)
      else do
        let sub ← (wq fty fv out.isInline).mapError
          (fun m => "failed to write query for struct field `" ++ sig.fname ++ "`: " ++ m)
        let tail ← writeStructFieldsGen wq rest true
        .ok (comma ++ namePart ++ sub ++ tail)

/-- The body of `writeStructQuery` past the wrapper check: the
`json.Unmarshaler` scalar cut-off, then the field loop.  (The
`t.AssignableTo(idType)` test can never hold for a struct kind — `ID`
has string kind — and is omitted.) -/
def writeStructBodyGen (wq : WriteQ) (t : GoTy) (v : Option GoVal) (inline : Bool) :
    Except String String :=
  let unmarshaler :=
    match t with
    | .structT m _ => m.jsonUnmarshaler
    | _ => false
  if unmarshaler then .ok ""
  else do
    let body ← writeStructFieldsGen wq (pairsOf t v) false
    if inline then .ok body else .ok ("\x7b" ++ body ++ "\x7d")

/-- `writeStructQuery`. -/
def writeStructQueryGen (wq : WriteQ) (t : GoTy) (v : Option GoVal) (inline : Bool) :
    Except String String :=
  if isWrapperType v then
    match unwrapValue v with
    | some wrapped =>
      (wq (GoVal.tyOf wrapped) (some wrapped) inline).mapError
        (fun m => "failed to write query for wrapped struct `" ++ tyRender t ++ "`: " ++ m)
    | none => writeStructBodyGen wq t v inline
  else writeStructBodyGen wq t v inline

/-- The pair loop of `writeOrderedMapQuery`. -/
def writePairsGen (wq : WriteQ) : List GoVal → Except String String
  | [] => .ok ""
  | pair :: rest =>
    match pair with
    | .varr2 _ k val =>
      match pairKeyString k with
      | none =>
        .error ("expected pair (string, ?), got (" ++ tyRender (GoVal.tyOf k) ++ ", ?)")
      | some keyString =>
        match stripIface val with
        | none => .error "reflect: call of reflect.Value.Type on zero Value"
        | some cval => do
          let sub ← (wq (GoVal.tyOf cval) (some cval) false).mapError
            (fun m => "failed to write query for pair[1] `" ++ tyRender (GoVal.tyOf cval) ++ "`: " ++ m)
          let tail ← writePairsGen wq rest
          .ok (keyString ++ sub ++ tail)
    | _ => .error "model: ill-formed ordered map element"

/-- `writeOrderedMapQuery`.  (The arity guard `t.Elem().Len() != 2`
cannot fire: in this universe every array type has length two.)  Go
panics on `Len` of an invalid value and on `Type` of a nil pair value;
the model returns the panic texts. -/
def writeOrderedMapQueryGen (wq : WriteQ) (v : Option GoVal) :
    Except String String :=
  match v with
  | some (.vslice _ esOpt) => do
    let body ← writePairsGen wq (esOpt.getD [])
    .ok ("\x7b" ++ body ++ "\x7d")
  | _ => .error "reflect: call of reflect.Value.Len on zero Value"

/-- `writeSliceQuery`. -/
def writeSliceQueryGen (wq : WriteQ) (t : GoTy) (v : Option GoVal) :
    Except String String :=
  match t with
  | .sliceT (.arr2T _) => writeOrderedMapQueryGen wq v
  | .sliceT e =>
    (wq e (indexSafe v 0) false).mapError
      (fun m => "failed to write query for slice item `" ++ tyRender (.sliceT e) ++ "`: " ++ m)
  | .rawMessageT =>
    -- json.RawMessage is a byte slice; its element kind never recurses
    -- into anything that writes output.
    .ok ""
  | _ => .ok ""

/-- One level of `writeQuery`'s kind dispatch, with `wq` the recursive
call for the nested levels. -/
def writeQueryGo (wq : WriteQ) (t : GoTy) (v : Option GoVal) (inline : Bool) :
    Except String String :=
  match t with
  | .ifaceT => writeInterfaceQueryGen wq v inline
  | .ptrT e =>
    (wq e (elemSafe v) false).mapError
      (fun m => "failed to write query for ptr `" ++ tyRender (.ptrT e) ++ "`: " ++ m)
  | .structT m fs => writeStructQueryGen wq (.structT m fs) v inline
  | .sliceT e => writeSliceQueryGen wq (.sliceT e) v
  | .arr2T e => writeSliceQueryGen wq (.arr2T e) v
  | .mapT k w =>
    .error ("type " ++ tyRender (.mapT k w) ++ " is not supported, use [][2]any instead")
  | .rawMessageT => writeSliceQueryGen wq .rawMessageT v
  | _ => .ok ""

/-- `writeQuery`.  `fuel` bounds the value/type nesting depth (one unit
per level); all claims about the writer hold for every fuel. -/
def writeQueryF : Nat → WriteQ
  | 0 => fun _ _ _ => .error "model: writer out of fuel"
  | fuel + 1 => writeQueryGo (writeQueryF fuel)

/-! ## Arguments writer (`queryArguments` / `writeArgumentsFromMap`) -/

/-- `writeArgumentType(w, t, v, value)`.  Pure string production (the Go
function cannot fail).  Faithful detail: inside the
`ImplementsGraphQLType` branch the source reassigns
`value = t.Kind() != reflect.Ptr` *before* attempting extraction, so a
failed extraction falls through with the reassigned flag. -/
def writeArgumentType (t : GoTy) (v : Option GoVal) (value : Bool) : String :=
  let impl := implementsGraphQLType t
  let value1 := if impl then !(t matches GoTy.ptrT _) else value
  let extracted : Option String :=
    if impl then
      match (match v with
             | some w => getGraphQLType (some w) t
             | none => none) with
      | some n => some n
      | none => getGraphQLTypeFromType t
    else none
  match extracted with
  | some n => n ++ (if value1 then "!" else "")
  | none =>
    match t with
    | .ptrT e => writeArgumentType e v false
    | .intT => "Int" ++ (if value1 then "!" else "")
    | .sliceT e => "[" ++ writeArgumentType e none true ++ "]" ++ (if value1 then "!" else "")
    | .arr2T e => "[" ++ writeArgumentType e none true ++ "]" ++ (if value1 then "!" else "")
    | .rawMessageT =>
      -- json.RawMessage has slice kind with a uint8 element
      "[" ++ "Int!" ++ "]" ++ (if value1 then "!" else "")
    | .float64T => "Float" ++ (if value1 then "!" else "")
    | .boolT => "Boolean" ++ (if value1 then "!" else "")
    | .stringT => "String" ++ (if value1 then "!" else "")
    | .ifaceT => "" ++ (if value1 then "!" else "")
    | .mapT _ _ => "" ++ (if value1 then "!" else "")
    | .structT m _ => m.sname ++ (if value1 then "!" else "")

/-- Byte-wise lexicographic `≤` on Go strings.  (For valid UTF-8 the
byte order used by `sort.Strings` coincides with code-point order,
which is what we compare.) -/
def charsLe : List Char → List Char → Bool
  | [], _ => true
  | _ :: _, [] => false
  | a :: as, b :: bs =>
    if a.toNat = b.toNat then charsLe as bs else decide (a.toNat < b.toNat)

def strLe (a b : String) : Bool :=
  charsLe a.data b.data

/-- The proposition form of `strLe`, for the order lemmas. -/
def sLe (a b : String) : Prop :=
  strLe a b = true

/-- Insert into a sorted list (the sorting network of `sort.Strings`;
any correct sort produces this unique ascending arrangement). -/
def insertStr (x : String) : List String → List String
  | [] => [x]
  | y :: ys => if strLe x y then x :: y :: ys else y :: insertStr x ys

/-- `sort.Strings` (ascending byte-wise lexicographic). -/
def sortStrings : List String → List String
  | [] => []
  | x :: xs => insertStr x (sortStrings xs)

/-- Go map lookup `variables[k]` over the association-list model. -/
def lookupKey (entries : List (String × GoVal)) (k : String) : Option GoVal :=
  match entries.find? (fun e => e.1 = k) with
  | some e => some e.2
  | none => none

/-- `writeArgumentsFromMap`: a Go `map[string]any` is modelled as an
association list whose order stands for the (arbitrary) map iteration
order; the function collects the keys, sorts them, and emits
`$k:<type>` per key. -/
def writeArgumentsFromMap (entries : List (String × GoVal)) : String :=
  let keys := sortStrings (entries.map (·.1))
  keys.foldl
    (fun acc k =>
      acc ++ "$" ++ k ++ ":" ++
        (match lookupKey entries k with
         | some w => writeArgumentType (GoVal.tyOf w) (some w) true
         | none => ""))
    ""

/-! ## Concrete targets used by the claim theorems -/

/-- Decoder state whose target is a single `[]string` field pre-seeded
with `es` (the template slice of `decodeArrayStart`), with the root
reference on the sole stack. -/
def templSliceState (es : List GoVal) : DecState :=
  ⟨.vslice .stringT (some es), [], [[some []]], [""], "", ""⟩

/-- `struct { Foo *string; Bar *string }` with `Bar` pre-set to a
non-nil pointer (the shape of `TestUnmarshalGraphQL_pointer`). -/
def pointerQuery : GoVal :=
  .vstruct (plainMeta "query")
    [(fld "Foo" none, .ptrT .stringT, .vptr .stringT none),
     (fld "Bar" none, .ptrT .stringT, .vptr .stringT (some (.vstring "will be overwritten")))]

/-- A fragment sub-struct: one string field answering to the GraphQL
name `value`, holding `x`. -/
def fragStruct (n : String) (x : String) : GoVal :=
  .vstruct (plainMeta n) [(fld "X" (some "value"), .stringT, .vstring x)]

/-- The two-fragment union target of the fragment-exclusivity claims:
a `__typename` capture field plus two discriminated fragments (tagged
`... on A` and `... on B`) that declare the same sibling field `value`.
`tn`, `a`, `b` are the current values of the three leaves. -/
def unionQuery (tn a b : String) : GoVal :=
  .vstruct (plainMeta "u")
    [(fld "Typename" (some "__typename"), .stringT, .vstring tn),
     (fld "FragA" (some "... on A"), GoVal.tyOf (fragStruct "a" a), fragStruct "a" a),
     (fld "FragB" (some "... on B"), GoVal.tyOf (fragStruct "b" b), fragStruct "b" b)]

/-- Target of the C4 counterexample: an outer struct whose field `Foo`
is a struct containing a discriminated fragment, so that the fragment
stack is discovered at a *nested* object open. -/
def nestedFragInner : GoVal :=
  .vstruct (plainMeta "b") [(fld "L" none, .intT, .vint 0)]

def nestedFragFoo : GoVal :=
  .vstruct (plainMeta "foo")
    [(fld "K" none, .intT, .vint 0),
     (fld "B" (some "... on B"), GoVal.tyOf nestedFragInner, nestedFragInner)]

def nestedFragQuery : GoVal :=
  .vstruct (plainMeta "q") [(fld "Foo" none, GoVal.tyOf nestedFragFoo, nestedFragFoo)]

/-- The token stream `{"foo":{"k":1}}`. -/
def nestedFragToks : List Tok :=
  [.objStart, .tstring "foo", .objStart, .tstring "k", .tnumber 1, .objEnd, .objEnd]

/-- One decode-loop step as a relation on (state, remaining tokens): the
loop is still live (`d.vs` non-empty) and one iteration succeeds. -/
def StepRel (a b : DecState × List Tok) : Prop :=
  a.1.vs ≠ [] ∧ decodeIter a.1 a.2 = .ok b

/-- The start of the decode run of `{"foo":{"k":1}}` against the
nested-fragment target. -/
def nfStart : DecState × List Tok := (initState (.ptrTo nestedFragQuery), nestedFragToks)

/-- One decoder step on a concrete (state, tokens) pair (identity on
error), used to name the intermediate states of a concrete run. -/
def stepOk (p : DecState × List Tok) : DecState × List Tok :=
  match decodeIter p.1 p.2 with
  | .ok q => q
  | .error _ => p

/-- A struct type that implements `types.GraphQLType` (reporting the
wire name `MyScalar`), for the writer claims. -/
def gqlScalarTy : GoTy :=
  .structT { sname := "MyScalar", gqlTypeName := some "MyScalar",
             isWrapper := false, jsonUnmarshaler := false } []

/-! ## Order lemmas for the key sort (helpers for C6) -/

theorem charToNat_inj {a b : Char} (h : a.toNat = b.toNat) : a = b :=
  Char.ext (UInt32.ext h)

theorem charsLe_total : ∀ a b, charsLe a b = true ∨ charsLe b a = true := by
  intro a
  induction a with
  | nil => intro b; exact Or.inl rfl
  | cons x xs ih =>
    intro b
    cases b with
    | nil => exact Or.inr rfl
    | cons y ys =>
      simp only [charsLe]
      by_cases hxy : x.toNat = y.toNat
      · simpa [hxy] using ih ys
      · have hyx : ¬ y.toNat = x.toNat := fun h => hxy h.symm
        simp only [if_neg hxy, if_neg hyx, decide_eq_true_eq]
        omega

theorem charsLe_trans : ∀ a b c, charsLe a b = true → charsLe b c = true → charsLe a c = true := by
  intro a
  induction a with
  | nil => intro b c _ _; rfl
  | cons x xs ih =>
    intro b c hab hbc
    cases b with
    | nil => simp [charsLe] at hab
    | cons y ys =>
      cases c with
      | nil => simp [charsLe] at hbc
      | cons z zs =>
        simp only [charsLe] at hab hbc ⊢
        by_cases hxy : x.toNat = y.toNat <;> by_cases hyz : y.toNat = z.toNat
        · rw [if_pos hxy] at hab
          rw [if_pos hyz] at hbc
          rw [if_pos (hxy.trans hyz)]
          exact ih ys zs hab hbc
        · rw [if_pos hxy] at hab
          rw [if_neg hyz, decide_eq_true_eq] at hbc
          have hxz : ¬ x.toNat = z.toNat := by omega
          rw [if_neg hxz, decide_eq_true_eq]
          omega
        · rw [if_neg hxy, decide_eq_true_eq] at hab
          rw [if_pos hyz] at hbc
          have hxz : ¬ x.toNat = z.toNat := by omega
          rw [if_neg hxz, decide_eq_true_eq]
          omega
        · rw [if_neg hxy, decide_eq_true_eq] at hab
          rw [if_neg hyz, decide_eq_true_eq] at hbc
          have hxz : ¬ x.toNat = z.toNat := by omega
          rw [if_neg hxz, decide_eq_true_eq]
          omega

theorem charsLe_antisymm : ∀ a b, charsLe a b = true → charsLe b a = true → a = b := by
  intro a
  induction a with
  | nil =>
    intro b _ hba
    cases b with
    | nil => rfl
    | cons y ys => simp [charsLe] at hba
  | cons x xs ih =>
    intro b hab hba
    cases b with
    | nil => simp [charsLe] at hab
    | cons y ys =>
      simp only [charsLe] at hab hba
      by_cases hxy : x.toNat = y.toNat
      · have hyx : y.toNat = x.toNat := hxy.symm
        rw [if_pos hxy] at hab
        rw [if_pos hyx] at hba
        rw [charToNat_inj hxy, ih ys hab hba]
      · have hyx : ¬ y.toNat = x.toNat := fun h => hxy h.symm
        rw [if_neg hxy, decide_eq_true_eq] at hab
        rw [if_neg hyx, decide_eq_true_eq] at hba
        omega

instance : IsTotal String sLe := ⟨fun a b => charsLe_total a.data b.data⟩
instance : IsTrans String sLe := ⟨fun a b c => charsLe_trans a.data b.data c.data⟩
instance : IsAntisymm String sLe :=
  ⟨fun a b hab hba => by
    have h := charsLe_antisymm a.data b.data hab hba
    cases a
    cases b
    exact congrArg String.mk h⟩

theorem insertStr_perm (x : String) (l : List String) : (insertStr x l).Perm (x :: l) := by
  induction l with
  | nil => exact List.Perm.refl _
  | cons y ys ih =>
    simp only [insertStr]
    by_cases h : strLe x y
    · simp [h]
    · simp only [if_neg h]
      exact (List.Perm.cons y ih).trans (List.Perm.swap x y ys)

theorem sortStrings_perm (l : List String) : (sortStrings l).Perm l := by
  induction l with
  | nil => exact List.Perm.refl _
  | cons x xs ih =>
    exact (insertStr_perm x (sortStrings xs)).trans (List.Perm.cons x ih)

theorem insertStr_sorted (x : String) (l : List String) (h : l.Sorted sLe) :
    (insertStr x l).Sorted sLe := by
  induction l with
  | nil => simp [insertStr, List.Sorted]
  | cons y ys ih =>
    simp only [insertStr]
    by_cases hxy : strLe x y
    · rw [if_pos hxy]
      refine List.sorted_cons.mpr ⟨?_, h⟩
      intro b hb
      rcases List.mem_cons.mp hb with rfl | hb
      · exact hxy
      · exact charsLe_trans _ _ _ hxy ((List.sorted_cons.mp h).1 b hb)
    · rw [if_neg hxy]
      have hyx : sLe y x := by
        rcases charsLe_total x.data y.data with h1 | h1
        · exact absurd h1 hxy
        · exact h1
      refine List.sorted_cons.mpr ⟨?_, ih (List.sorted_cons.mp h).2⟩
      intro b hb
      have hb' : b = x ∨ b ∈ ys := by
        simpa using (insertStr_perm x ys).mem_iff.mp hb
      rcases hb' with rfl | hb'
      · exact hyx
      · exact (List.sorted_cons.mp h).1 b hb'

theorem sortStrings_sorted (l : List String) : (sortStrings l).Sorted sLe := by
  induction l with
  | nil => simp [sortStrings, List.Sorted]
  | cons x xs ih => exact insertStr_sorted x (sortStrings xs) ih

theorem sortStrings_eq_of_perm {l₁ l₂ : List String} (h : l₁.Perm l₂) :
    sortStrings l₁ = sortStrings l₂ :=
  List.eq_of_perm_of_sorted
    ((sortStrings_perm l₁).trans (h.trans (sortStrings_perm l₂).symm))
    (sortStrings_sorted l₁) (sortStrings_sorted l₂)

theorem lookupKey_perm {l₁ l₂ : List (String × GoVal)} (h : l₁.Perm l₂)
    (hnd : (l₁.map Prod.fst).Nodup) (k : String) :
    lookupKey l₁ k = lookupKey l₂ k := by
  unfold lookupKey
  cases hf₁ : l₁.find? (fun e => e.1 = k) with
  | none =>
    have hnone := List.find?_eq_none.mp hf₁
    have : l₂.find? (fun e => e.1 = k) = none :=
      List.find?_eq_none.mpr (fun x hx => hnone x (h.mem_iff.mpr hx))
    rw [this]
  | some e =>
    have he₁ : e ∈ l₁ := List.mem_of_find?_eq_some hf₁
    have hpe : e.1 = k := by simpa using List.find?_some hf₁
    cases hf₂ : l₂.find? (fun e => e.1 = k) with
    | none =>
      exact absurd (by simpa using hpe)
        (List.find?_eq_none.mp hf₂ e (h.mem_iff.mp he₁))
    | some e' =>
      have he₂ : e' ∈ l₁ := h.mem_iff.mpr (List.mem_of_find?_eq_some hf₂)
      have hpe' : e'.1 = k := by simpa using List.find?_some hf₂
      have : e = e' :=
        List.inj_on_of_nodup_map hnd he₁ he₂ (hpe.trans hpe'.symm)
      rw [this]

/-! ## Frontier-invariant lemmas (helpers for C4 and C10) -/

theorem popAllVsPair_len : ∀ (vs : List Stack) (ts : List String),
    (popAllVsPair vs ts).1.length = (popAllVsPair vs ts).2.length := by
  intro vs
  induction vs with
  | nil => intro ts; rfl
  | cons s ss ih =>
    intro ts
    simp only [popAllVsPair]
    split
    · simp [ih]
    · exact ih (ts.drop 1)

theorem popAllVsPair_nonempty : ∀ (vs : List Stack) (ts : List String),
    ∀ s ∈ (popAllVsPair vs ts).1, s ≠ [] := by
  intro vs
  induction vs with
  | nil => intro ts s hs; simp [popAllVsPair] at hs
  | cons x ss ih =>
    intro ts s hs
    simp only [popAllVsPair] at hs
    split at hs
    · rcases List.mem_cons.mp hs with rfl | hs
      · assumption
      · exact ih (ts.drop 1) s hs
    · exact ih (ts.drop 1) s hs

theorem selectAndPushPair_len (hm : Bool) : ∀ (vs : List Stack) (fis : List FieldInfo),
    (selectAndPushPair hm vs fis).1.length = vs.length := by
  intro vs
  induction vs with
  | nil => intro fis; rfl
  | cons s ss ih => intro fis; simp [selectAndPushPair, ih]

theorem selectAndPushPair_nonempty (hm : Bool) : ∀ (vs : List Stack) (fis : List FieldInfo),
    ∀ s ∈ (selectAndPushPair hm vs fis).1, s ≠ [] := by
  intro vs
  induction vs with
  | nil => intro fis s hs; simp [selectAndPushPair] at hs
  | cons x ss ih =>
    intro fis s hs
    simp only [selectAndPushPair] at hs
    rcases List.mem_cons.mp hs with rfl | hs
    · simp
    · exact ih (fis.drop 1) s hs

theorem popAllVs_aligned (st : DecState) :
    (popAllVs st).vs.length = (popAllVs st).fragmentTypes.length :=
  popAllVsPair_len st.vs st.fragmentTypes

theorem popAllVs_nonempty (st : DecState) : ∀ s ∈ (popAllVs st).vs, s ≠ [] :=
  popAllVsPair_nonempty st.vs st.fragmentTypes

theorem decodeObjectStart_vs (st : DecState) :
    ∃ added : List (GoPath × String),
      (decodeObjectStart st).vs = st.vs ++ added.map (fun d => [some d.1]) ∧
      (decodeObjectStart st).fragmentTypes = st.fragmentTypes ++ added.map (fun d => d.2) := by
  exact ⟨_, rfl, rfl⟩

theorem exceptMap_ok {α β : Type} {f : α → β} {x : Except String α} {b : β}
    (h : Except.map f x = .ok b) : ∃ a, x = .ok a ∧ f a = b := by
  cases x with
  | error e => simp [Except.map] at h
  | ok a =>
    simp only [Except.map, Except.ok.injEq] at h
    exact ⟨a, rfl, h⟩

theorem decodeScalarValue_shape {tok : Tok} {st st' : DecState}
    (h : decodeScalarValue tok st = .ok st') :
    st'.vs.length = st'.fragmentTypes.length ∧ ∀ s ∈ st'.vs, s ≠ [] := by
  unfold decodeScalarValue at h
  obtain ⟨tree', hw, hst⟩ := exceptMap_ok h
  subst hst
  exact ⟨popAllVs_aligned _, popAllVs_nonempty _⟩

theorem decodeArrayStart_shape {st st' : DecState} (h : decodeArrayStart st = .ok st') :
    st'.vs = st.vs ∧ st'.fragmentTypes = st.fragmentTypes := by
  unfold decodeArrayStart at h
  obtain ⟨tree', hw, hst⟩ := exceptMap_ok h
  subst hst
  exact ⟨rfl, rfl⟩

theorem decodeObjectKey_shape {key : String} {st : DecState} {toks : List Tok}
    {tok1 : Tok} {st1 : DecState} {rest1 : List Tok}
    (h : decodeObjectKey key st toks = .ok (tok1, st1, rest1)) :
    st1.fragmentTypes = st.fragmentTypes ∧
    st1.vs.length = st.vs.length ∧ (∀ s ∈ st1.vs, s ≠ []) := by
  simp only [decodeObjectKey] at h
  split at h
  · simp at h
  · split at h
    · cases htk : takeOneValue toks with
      | error e => rw [htk] at h; simp [Bind.bind, Except.bind] at h
      | ok r =>
        rw [htk] at h
        simp only [Bind.bind, Except.bind, Except.ok.injEq, Prod.mk.injEq] at h
        obtain ⟨-, h2, -⟩ := h
        subst h2
        exact ⟨rfl, selectAndPushPair_len _ _ _, selectAndPushPair_nonempty _ _ _⟩
    · split at h
      · simp at h
      · simp only [Except.ok.injEq, Prod.mk.injEq] at h
        obtain ⟨-, h2, -⟩ := h
        subst h2
        exact ⟨rfl, selectAndPushPair_len _ _ _, selectAndPushPair_nonempty _ _ _⟩

theorem exceptBind_ok {α β : Type} {x : Except String α} {f : α → Except String β} {b : β}
    (h : (x >>= f) = .ok b) : ∃ a, x = .ok a ∧ f a = .ok b := by
  cases x with
  | error e => simp [Bind.bind, Except.bind] at h
  | ok a =>
    refine ⟨a, rfl, ?_⟩
    simpa [Bind.bind, Except.bind] using h

theorem exceptMapError_ok {α : Type} {x : Except String α} {g : String → String} {a : α}
    (h : x.mapError g = .ok a) : x = .ok a := by
  cases x with
  | error e => simp [Except.mapError] at h
  | ok a' => simpa [Except.mapError] using h

theorem decodeArrayValue_go_shape : ∀ (tree : GoVal) (vs : List Stack) (r : GoVal × List Stack × Bool),
    decodeArrayValue.go tree vs = .ok r →
    r.2.1.length = vs.length ∧ ∀ s ∈ r.2.1, s ≠ [] := by
  intro tree vs
  induction vs generalizing tree with
  | nil =>
    intro r h
    simp only [decodeArrayValue.go, Except.ok.injEq] at h
    subst h
    exact ⟨rfl, by simp⟩
  | cons s ss ih =>
    intro r h
    simp only [decodeArrayValue.go] at h
    split at h
    · split at h
      · simp at h
      · obtain ⟨copied, hc, h⟩ := exceptBind_ok h
        obtain ⟨rr, hrr, h⟩ := exceptBind_ok h
        simp only [Except.ok.injEq] at h
        subst h
        obtain ⟨hlen, hne⟩ := ih _ _ hrr
        refine ⟨by simp [hlen], ?_⟩
        intro s' hs'
        rcases List.mem_cons.mp hs' with rfl | hs'
        · simp
        · exact hne s' hs'
    · obtain ⟨rr, hrr, h⟩ := exceptBind_ok h
      simp only [Except.ok.injEq] at h
      subst h
      obtain ⟨hlen, hne⟩ := ih _ _ hrr
      refine ⟨by simp [hlen], ?_⟩
      intro s' hs'
      rcases List.mem_cons.mp hs' with rfl | hs'
      · simp
      · exact hne s' hs'

theorem decodeArrayValue_shape {st st' : DecState} (h : decodeArrayValue st = .ok st') :
    st'.fragmentTypes = st.fragmentTypes ∧
    st'.vs.length = st.vs.length ∧ (∀ s ∈ st'.vs, s ≠ []) := by
  simp only [decodeArrayValue] at h
  obtain ⟨r, hr, h⟩ := exceptBind_ok h
  split at h
  · simp at h
  · simp only [Except.ok.injEq] at h
    subst h
    obtain ⟨hlen, hne⟩ := decodeArrayValue_go_shape _ _ _ hr
    exact ⟨rfl, hlen, hne⟩

theorem decodeObjectStart_shape (st : DecState)
    (hA : st.vs.length = st.fragmentTypes.length) (hN : ∀ s ∈ st.vs, s ≠ []) :
    (decodeObjectStart st).vs.length = (decodeObjectStart st).fragmentTypes.length ∧
    ∀ s ∈ (decodeObjectStart st).vs, s ≠ [] := by
  unfold decodeObjectStart
  constructor
  · simp [pushStateFn, hA]
  · intro s hs
    simp only [pushStateFn] at hs
    rcases List.mem_append.mp hs with hs | hs
    · exact hN s hs
    · obtain ⟨d, -, rfl⟩ := List.mem_map.mp hs
      simp

theorem decodeIterPre_shape {st : DecState} {tok : Tok} {rest : List Tok}
    {pre : Tok × DecState × List Tok}
    (hA : st.vs.length = st.fragmentTypes.length)
    (hN : ∀ s ∈ st.vs, s ≠ [])
    (h : decodeIterPre st tok rest = .ok pre) :
    pre.2.1.vs.length = pre.2.1.fragmentTypes.length ∧ ∀ s ∈ pre.2.1.vs, s ≠ [] := by
  unfold decodeIterPre at h
  split at h
  · split at h
    · obtain ⟨hty, hlen, hne⟩ := decodeObjectKey_shape h
      exact ⟨by rw [hlen, hty, hA], hne⟩
    · simp at h
  · split at h
    · obtain ⟨stA, hsa, heq⟩ := exceptMap_ok h
      obtain ⟨hty, hlen, hne⟩ := decodeArrayValue_shape hsa
      rw [← heq]
      exact ⟨by rw [hlen, hty, hA], hne⟩
    · simp only [Except.ok.injEq] at h
      rw [← h]
      exact ⟨hA, hN⟩

theorem decodeIterDispatch_shape {pre : Tok × DecState × List Tok}
    {st' : DecState} {toks' : List Tok}
    (hA : pre.2.1.vs.length = pre.2.1.fragmentTypes.length)
    (hN : ∀ s ∈ pre.2.1.vs, s ≠ [])
    (h : decodeIterDispatch pre = .ok (st', toks')) :
    st'.vs.length = st'.fragmentTypes.length ∧ ∀ s ∈ st'.vs, s ≠ [] := by
  have hscalar : ∀ (st2 : DecState),
      decodeScalarValue pre.1 pre.2.1 = .ok st2 →
      (st2, pre.2.2) = ((st', toks') : DecState × List Tok) →
      st'.vs.length = st'.fragmentTypes.length ∧ ∀ s ∈ st'.vs, s ≠ [] := by
    intro st2 hs2 heq
    obtain ⟨h1, h2⟩ := decodeScalarValue_shape hs2
    simp only [Prod.mk.injEq] at heq
    rw [← heq.1]
    exact ⟨h1, h2⟩
  unfold decodeIterDispatch at h
  split at h
  case h_6 x heq =>
    simp only [Except.ok.injEq, Prod.mk.injEq] at h
    rw [← h.1]
    exact decodeObjectStart_shape _ hA hN
  case h_7 x heq =>
    obtain ⟨st2, hs2, heq2⟩ := exceptMap_ok h
    obtain ⟨hvs, hty⟩ := decodeArrayStart_shape hs2
    simp only [Prod.mk.injEq] at heq2
    rw [← heq2.1]
    refine ⟨by rw [hvs, hty]; exact hA, ?_⟩
    intro s hs
    exact hN s (hvs ▸ hs)
  case h_8 x heq =>
    simp only [Except.ok.injEq, Prod.mk.injEq] at h
    rw [← h.1]
    exact ⟨popAllVs_aligned _, popAllVs_nonempty _⟩
  case h_9 x heq =>
    simp only [Except.ok.injEq, Prod.mk.injEq] at h
    rw [← h.1]
    exact ⟨popAllVs_aligned _, popAllVs_nonempty _⟩
  all_goals
    (obtain ⟨st2, hs2, heq2⟩ := exceptMap_ok h
     exact hscalar st2 hs2 heq2)

theorem decodeIter_preserves {st st' : DecState} {toks toks' : List Tok}
    (hA : st.vs.length = st.fragmentTypes.length)
    (hN : ∀ s ∈ st.vs, s ≠ [])
    (h : decodeIter st toks = .ok (st', toks')) :
    st'.vs.length = st'.fragmentTypes.length ∧ ∀ s ∈ st'.vs, s ≠ [] := by
  cases toks with
  | nil => simp [decodeIter] at h
  | cons tok rest =>
    simp only [decodeIter] at h
    obtain ⟨pre, hpre, h⟩ := exceptBind_ok h
    obtain ⟨hA1, hN1⟩ := decodeIterPre_shape hA hN hpre
    exact decodeIterDispatch_shape hA1 hN1 h

/-- The initial state of any target satisfies both frontier invariants:
the stack list and the tag list are aligned and no stack is empty. -/
theorem initState_invariant (tgt : GoTarget) :
    (initState tgt).vs.length = (initState tgt).fragmentTypes.length ∧
    ∀ s ∈ (initState tgt).vs, s ≠ [] := by
  cases tgt <;> simp [initState]

/-- Both frontier invariants hold in every state reachable from an
initial decoder state by decode-loop steps. -/
theorem reachable_invariant {start p : DecState × List Tok} {tgt : GoTarget}
    (hstart : start.1 = initState tgt)
    (hreach : Relation.ReflTransGen StepRel start p) :
    p.1.vs.length = p.1.fragmentTypes.length ∧ ∀ s ∈ p.1.vs, s ≠ [] := by
  induction hreach with
  | refl => rw [hstart]; exact initState_invariant tgt
  | tail hab hbc ih =>
    obtain ⟨hlive, hiter⟩ := hbc
    exact decodeIter_preserves ih.1 ih.2 hiter

/-- The nested-fragment start state has a live (non-empty) stack list. -/
theorem nfStart_vs_ne : nfStart.1.vs ≠ [] := by
  intro hc
  rw [show nfStart.1.vs = [[some []]] from rfl] at hc
  exact List.noConfusion hc

/-- So does the state one decoder step in. -/
theorem nfStep1_vs_ne : (stepOk nfStart).1.vs ≠ [] := by
  intro hc
  rw [show (stepOk nfStart).1.vs = [[some []]] from rfl] at hc
  exact List.noConfusion hc

/-! # Claim theorems -/

/-- C7.  Tag-parser fragment rule: for every tag whose trimmed form
starts with `...`, `ParseGraphQLTag` reports a fragment with a nil
error; the text after `...` is trimmed, and the fragment type name is
the trimmed remainder after an `on ` head (empty otherwise — in
particular for `...` alone and `... on` with nothing after). -/
theorem c7_tagFragmentRule (tag : List Char)
    (h : hasPre (trimSpace tag) ['.', '.', '.'] = true) :
    parseGraphQLTag tag =
      ({ fieldName := [], arguments := [], aliasName := [], isFragment := true,
         typeName :=
           if hasPre (trimSpace ((trimSpace tag).drop 3)) ['o', 'n', ' ']
           then trimSpace ((trimSpace ((trimSpace tag).drop 3)).drop 3) else [] }, none) := by
  obtain ⟨rest, hrest⟩ : ∃ rest, trimSpace tag = '.' :: '.' :: '.' :: rest := by
    cases ht : trimSpace tag with
    | nil => rw [ht] at h; simp [hasPre, List.isPrefixOf] at h
    | cons a l =>
      cases l with
      | nil => rw [ht] at h; simp [hasPre, List.isPrefixOf] at h
      | cons b l2 =>
        cases l2 with
        | nil => rw [ht] at h; simp [hasPre, List.isPrefixOf] at h
        | cons c l3 =>
          rw [ht] at h
          simp [hasPre, List.isPrefixOf] at h
          exact ⟨l3, by rw [← h.1, ← h.2.1, ← h.2.2]⟩
  simp only [parseGraphQLTag, hrest]
  simp [hasPre, List.isPrefixOf]

/-- Witness for C7 at the concrete tag `... on Droid`. -/
theorem c7_tagFragmentRule_witness :
    parseGraphQLTag "... on Droid".toList =
      ({ fieldName := [], arguments := [], aliasName := [], isFragment := true,
         typeName := "Droid".toList }, none) := by
  have := c7_tagFragmentRule "... on Droid".toList (by decide)
  simpa using this

/-- C2.  The spec claims every pre-existing template-slice length other
than 0 or 1 is the hard error `template slice can only have 1 item, got
N`.  The code's `switch v.Len()` has only `case 2`: length 3 produces
*no* error — the slice is silently reset to an *empty* slice (losing the
template), after which the first array element panics in
`decodeArrayValue` via `v.Index(0)` (last conjunct; the model surfaces
the panic text as an error).  Lengths 0, 1 and 2 behave as claimed. -/
theorem c2_templateLengthBug :
    decodeArrayStart (templSliceState [.vstring "a", .vstring "b", .vstring "c"]) =
      .ok ⟨.vslice .stringT (some []), [Delim.dArr], [[some []]], [""], "", ""⟩ ∧
    decodeArrayStart (templSliceState [.vstring "a", .vstring "b"]) =
      .error "template slice can only have 1 item, got 2" ∧
    decodeArrayStart (templSliceState []) =
      .ok ⟨.vslice .stringT (some [.vstring ""]), [Delim.dArr], [[some []]], [""], "", ""⟩ ∧
    decodeArrayStart (templSliceState [.vstring "a"]) =
      .ok ⟨.vslice .stringT (some [.vstring "a"]), [Delim.dArr], [[some []]], [""], "", ""⟩ ∧
    unmarshalGraphQL [.arrStart, .tstring "x", .arrEnd]
        (.ptrTo (.vslice .stringT (some [.vstring "a", .vstring "b", .vstring "c"]))) =
      .error "reflect: slice index out of range" :=
  ⟨rfl, rfl, rfl, rfl, rfl⟩

/-- C3 counterexample.  The claim says any target that is not a non-null
pointer is rejected immediately through the unchecked/fatal path.  In
the code (i) a *nil pointer* passes the `Kind() != reflect.Ptr` check
and is not rejected at all — decoding a scalar into it returns success
without writing — and (ii) a non-pointer is rejected through the
*normal error return* (`Except.error` in the model), not a panic. -/
theorem c3_counterexample :
    unmarshalGraphQL [Tok.tstring "hi"] (.nilPtr .stringT) = .ok (.vstring "") ∧
    runDecode (.nonPtr "string") [Tok.tstring "hi"] =
      .error "cannot decode into non-pointer string" :=
  ⟨rfl, rfl⟩

/-- C3 amended.  A non-pointer decode target is rejected immediately —
before consuming any input token (the result does not depend on the
stream) — with the ordinary returned error `cannot decode into
non-pointer <T>`; a nil pointer passes the kind check and is not
immediately rejected (second conjunct: a scalar decodes into a nil
pointer with a nil error and no write). -/
theorem c3_nonPointerRejected :
    (∀ (tyName : String) (toks : List Tok),
      runDecode (.nonPtr tyName) toks = .error ("cannot decode into non-pointer " ++ tyName)) ∧
    unmarshalGraphQL [Tok.tstring "hi"] (.nilPtr .intT) = .ok (.vint 0) :=
  ⟨fun _ _ => rfl, rfl⟩

/-- C8.  Decoding a JSON null whose (non-discarded) destination is a
pointer-typed field sets the destination to the nil pointer, whatever
pointer value it held before (`unmarshalValue` builds a fresh zero and
never consults the prior pointee).  The last conjunct runs the full
decoder on `{"foo":"foo","bar":null}` against a target whose `Bar`
field holds a non-nil pointer and observes it overwritten with nil. -/
theorem c8_nullIntoPointer :
    (∀ (tree : GoVal) (p : GoPath) (e : GoTy) (prior : Option GoVal),
      getPath tree p = some (.vptr e prior) →
      unmarshalValue .tnull tree p = .ok (setPath tree p (.vptr e none))) ∧
    unmarshalGraphQL
        [.objStart, .tstring "foo", .tstring "foo", .tstring "bar", .tnull, .objEnd]
        (.ptrTo pointerQuery) =
      .ok (.vstruct (plainMeta "query")
        [(fld "Foo" none, .ptrT .stringT, .vptr .stringT (some (.vstring "foo"))),
         (fld "Bar" none, .ptrT .stringT, .vptr .stringT none)]) :=
  ⟨fun tree p e prior h => by
      simp only [unmarshalValue, h]
      simp [GoVal.tyOf, unmarshalScalar, unmarshalScalarCore, zeroVal, Except.map],
   rfl⟩

/-- Witness for C8: the general conjunct applied to a root-level pointer
currently holding `"old"`. -/
theorem c8_nullIntoPointer_witness :
    unmarshalValue .tnull (.vptr .stringT (some (.vstring "old"))) [] =
      .ok (.vptr .stringT none) := by
  have := c8_nullIntoPointer.1 (.vptr .stringT (some (.vstring "old"))) []
    .stringT (some (.vstring "old")) rfl
  simpa using this

/-- C6.  Determinism of the arguments writer over string-keyed variable
maps: the output depends only on the key-value contents, not on the map
iteration order (first conjunct: any two association lists with the same
contents — permutations with duplicate-free keys — produce byte-identical
output), and the declarations come out sorted by byte-wise ascending key
(the `{"b":1,"a":2}` example emits `$a:` before `$b:` from either
iteration order). -/
theorem c6_argumentsDeterminism :
    (∀ l₁ l₂ : List (String × GoVal), (l₁.map Prod.fst).Nodup → l₁.Perm l₂ →
      writeArgumentsFromMap l₁ = writeArgumentsFromMap l₂) ∧
    writeArgumentsFromMap [("b", .vint 1), ("a", .vint 2)] = "$a:Int!$b:Int!" ∧
    writeArgumentsFromMap [("a", .vint 2), ("b", .vint 1)] = "$a:Int!$b:Int!" := by
  refine ⟨?_, rfl, rfl⟩
  intro l₁ l₂ hnd hp
  unfold writeArgumentsFromMap
  rw [sortStrings_eq_of_perm (hp.map Prod.fst)]
  apply List.foldl_ext
  intro acc k _
  rw [lookupKey_perm hp hnd k]

/-- Witness for C6: the determinism conjunct applied to the two
iteration orders of `{"b":1,"a":2}`. -/
theorem c6_argumentsDeterminism_witness :
    writeArgumentsFromMap [("b", GoVal.vint 1), ("a", GoVal.vint 2)] =
      writeArgumentsFromMap [("a", GoVal.vint 2), ("b", GoVal.vint 1)] :=
  c6_argumentsDeterminism.1 _ _ (by decide) (List.Perm.swap _ _ _)

/-- Helper for C9: `processStructField` skips a field whose type
implements `GraphQLType` when its value is invalid, a nil pointer or a
nil interface. -/
theorem processStructField_skip_of_nil (sig : GoFieldSig) (declTy : GoTy) (fv : Option GoVal)
    (himpl : implementsGraphQLType declTy = true)
    (hnil : fv = none ∨ (∃ e, fv = some (.vptr e none)) ∨ fv = some (.viface none)) :
    (processStructField sig declTy fv).shouldSkip = true := by
  unfold processStructField
  rcases hnil with rfl | ⟨e, rfl⟩ | rfl <;> simp [himpl]

/-- Helper for C9: a skipped field is invisible to the field loop — no
name, no braces, no comma, no error, identical surrounding output. -/
theorem writeStructFieldsGen_skip (sig : GoFieldSig) (declTy : GoTy) (fv : Option GoVal)
    (hskip : (processStructField sig declTy fv).shouldSkip = true)
    (wq : WriteQ) (pre post : List (GoFieldSig × GoTy × Option GoVal)) (b : Bool) :
    writeStructFieldsGen wq (pre ++ (sig, declTy, fv) :: post) b =
      writeStructFieldsGen wq (pre ++ post) b := by
  induction pre generalizing b with
  | nil =>
    simp only [List.nil_append, writeStructFieldsGen]
    simp [hskip]
  | cons hd tl ih =>
    obtain ⟨hsig, hty, hfv⟩ := hd
    simp only [List.cons_append, writeStructFieldsGen]
    by_cases hs : (processStructField hsig hty hfv).shouldSkip
    · simp only [hs, if_true]
      exact ih b
    · simp only [hs, if_false, Bool.false_eq_true]
      by_cases hsc : (processStructField hsig hty hfv).isScalar
      · simp only [hsc, if_true]
        simp only [List.append_eq, ih]
      · simp only [hsc, if_false, Bool.false_eq_true]
        simp only [List.append_eq, ih]

/-- C9.  In the selection writer, every struct field whose static type
implements `GraphQLType` but whose current value is invalid, a nil
pointer or a nil interface is skipped by `processStructField`, making
it invisible in the document: the field loop produces the exact same
output (and the same error behaviour) as for the struct without that
field — no field name, no braces, no stray comma, siblings untouched.
The second conjunct lifts this to `writeQuery` on whole (non-wrapper)
struct values. -/
theorem c9_nilGraphQLTypeFieldOmitted :
    (∀ (sig : GoFieldSig) (declTy : GoTy) (fv : Option GoVal),
      implementsGraphQLType declTy = true →
      (fv = none ∨ (∃ e, fv = some (.vptr e none)) ∨ fv = some (.viface none)) →
      (processStructField sig declTy fv).shouldSkip = true ∧
      (∀ (wq : WriteQ) (pre post : List (GoFieldSig × GoTy × Option GoVal)) (b : Bool),
        writeStructFieldsGen wq (pre ++ (sig, declTy, fv) :: post) b =
          writeStructFieldsGen wq (pre ++ post) b)) ∧
    (∀ (sig : GoFieldSig) (declTy : GoTy) (w : GoVal) (fuel : Nat) (m : StructMeta)
       (inline : Bool) (pre post : List (GoFieldSig × GoTy × GoVal)),
      implementsGraphQLType declTy = true →
      ((∃ e, w = .vptr e none) ∨ w = .viface none) →
      m.isWrapper = false →
      writeQueryF fuel (GoVal.tyOf (.vstruct m (pre ++ (sig, declTy, w) :: post)))
        (some (.vstruct m (pre ++ (sig, declTy, w) :: post))) inline =
      writeQueryF fuel (GoVal.tyOf (.vstruct m (pre ++ post)))
        (some (.vstruct m (pre ++ post))) inline) := by
  constructor
  · intro sig declTy fv himpl hnil
    have hskip := processStructField_skip_of_nil sig declTy fv himpl hnil
    exact ⟨hskip, fun wq pre post b => writeStructFieldsGen_skip sig declTy fv hskip wq pre post b⟩
  · intro sig declTy w fuel m inline pre post himpl hnil hwrap
    have hskip : (processStructField sig declTy (some w)).shouldSkip = true := by
      apply processStructField_skip_of_nil sig declTy (some w) himpl
      rcases hnil with ⟨e, rfl⟩ | rfl
      · exact Or.inr (Or.inl ⟨e, rfl⟩)
      · exact Or.inr (Or.inr rfl)
    cases fuel with
    | zero => rfl
    | succ fuel =>
      simp only [writeQueryF, writeQueryGo, GoVal.tyOf, writeStructQueryGen,
        isWrapperType, unwrapConcrete, hwrap, Bool.false_eq_true, if_false,
        writeStructBodyGen, pairsOf]
      simp only [List.map_append, List.map_cons]
      rw [writeStructFieldsGen_skip sig declTy (some w) hskip]

/-- Witness for C9: writing `struct{A int; Skipped *MyScalar; B int}`
with `Skipped` nil produces exactly the document of the struct without
`Skipped` (which evaluates to `{a,b}` — single comma, no trace of the
skipped field). -/
theorem c9_nilGraphQLTypeFieldOmitted_witness :
    writeQueryF 8 (GoVal.tyOf (.vstruct (plainMeta "q")
        ([(fld "A" none, .intT, .vint 0)] ++
          (fld "Skipped" none, .ptrT gqlScalarTy, .vptr gqlScalarTy none) ::
          [(fld "B" none, .intT, .vint 0)])))
      (some (.vstruct (plainMeta "q")
        ([(fld "A" none, .intT, .vint 0)] ++
          (fld "Skipped" none, .ptrT gqlScalarTy, .vptr gqlScalarTy none) ::
          [(fld "B" none, .intT, .vint 0)])))
      false = .ok "{a,b}" := by
  have h := c9_nilGraphQLTypeFieldOmitted.2 (fld "Skipped" none) (.ptrT gqlScalarTy)
    (.vptr gqlScalarTy none) 8 (plainMeta "q") false
    [(fld "A" none, .intT, .vint 0)] [(fld "B" none, .intT, .vint 0)]
    (by decide) (Or.inl ⟨gqlScalarTy, rfl⟩) (by decide)
  rw [h]
  rfl

/-- C1 counterexample.  The claim asserts fragment exclusivity for every
decoded object carrying `__typename: "B"`.  It only holds when the
`__typename` key precedes the contested key: decoding
`{"value":"x","__typename":"B"}` (typename last) populates BOTH
fragments' `value` field, because `findFieldsForKey` discriminates with
the typename known at the moment the contested key is decoded — empty
here, so every fragment matches. -/
theorem c1_counterexample :
    unmarshalGraphQL
        [.objStart, .tstring "value", .tstring "x",
         .tstring "__typename", .tstring "B", .objEnd]
        (.ptrTo (unionQuery "" "" "")) = .ok (unionQuery "B" "x" "x") := by rfl

/-- C1 (amended).  Fragment exclusivity holds when the `__typename` key
precedes the contested key: decoding `{"__typename":"B","value":s}` into
the two-fragment union populates the typename capture field and only the
`... on B` fragment's `value` field; the `... on A` fragment's field
stays at its zero value.  When `__typename` comes after the contested
key, both fragments are populated (see the counterexample). -/
theorem c1_typenameFirstExclusive (s : String) :
    unmarshalGraphQL
        [.objStart, .tstring "__typename", .tstring "B",
         .tstring "value", .tstring s, .objEnd]
        (.ptrTo (unionQuery "" "" "")) = .ok (unionQuery "B" "" s) := by rfl

/-- C5.  Backward-permissive fallback: with no `__typename` key in the
payload at all, decoding `{"value":s}` into the two-fragment union
populates BOTH fragments' same-named `value` field with the single
incoming value. -/
theorem c5_noTypenameBothPopulated (s : String) :
    unmarshalGraphQL [.objStart, .tstring "value", .tstring s, .objEnd]
      (.ptrTo (unionQuery "" "" "")) = .ok (unionQuery "" s s) := by rfl

/-- C4 counterexample.  The claim says all live frontier stacks have
equal depth at every point of the walk.  Two decoder steps into the
decode of `{"foo":{"k":1}}` against the nested-fragment target the
frontier holds two live stacks of depths 2 and 1: the root stack already
carries the outer and inner references when the `... on B` fragment
stack is discovered at the nested object-open, and the new stack starts
at depth 1. -/
theorem c4_counterexample :
    Relation.ReflTransGen StepRel nfStart (stepOk (stepOk nfStart)) ∧
    (stepOk (stepOk nfStart)).1.vs.map List.length = [2, 1] :=
  ⟨Relation.ReflTransGen.tail
      (Relation.ReflTransGen.tail Relation.ReflTransGen.refl ⟨nfStart_vs_ne, rfl⟩)
      ⟨nfStep1_vs_ne, rfl⟩,
   rfl⟩

/-- C4 (amended).  The equal-depth half of the claim is false (see the
counterexample): a fragment stack discovered at a nested object-open
starts at depth 1 while the root stack is already deeper.  What does
hold at every reachable point of a decode run is the retirement half:
the frontier never carries an empty stack, because `popAllVs` removes a
stack (with its tag) the moment it becomes empty. -/
theorem c4_stackRetirement (tgt : GoTarget) (toks : List Tok) (p : DecState × List Tok)
    (hreach : Relation.ReflTransGen StepRel (initState tgt, toks) p) :
    ∀ s ∈ p.1.vs, s ≠ [] :=
  (@reachable_invariant (initState tgt, toks) p tgt rfl hreach).2

/-- Witness for C4 (amended) at the nested-fragment start state: its
root stack is live and non-empty. -/
theorem c4_stackRetirement_witness : ([some []] : Stack) ≠ [] :=
  c4_stackRetirement (.ptrTo nestedFragQuery) nestedFragToks
    (initState (.ptrTo nestedFragQuery), nestedFragToks)
    Relation.ReflTransGen.refl [some []] (List.mem_singleton.mpr rfl)

/-- C10.  The decoder's two parallel collections — the frontier stacks
`vs` and their fragment-type tags `fragmentTypes` — have equal length
throughout every decode run: they start as a single pair each (first
conjunct), every state reachable by decode-loop steps keeps them aligned
(second conjunct), object-open discovery appends stacks and their tags
in lockstep (third conjunct), and retiring empty stacks preserves the
alignment (fourth conjunct). -/
theorem c10_parallelPairAligned (v : GoVal) (toks : List Tok) (p : DecState × List Tok)
    (hreach : Relation.ReflTransGen StepRel (initState (.ptrTo v), toks) p) :
    ((initState (.ptrTo v)).vs.length = 1 ∧
      (initState (.ptrTo v)).fragmentTypes.length = 1) ∧
    p.1.vs.length = p.1.fragmentTypes.length ∧
    (∀ st : DecState, ∃ added : List (GoPath × String),
        (decodeObjectStart st).vs = st.vs ++ added.map (fun d => [some d.1]) ∧
        (decodeObjectStart st).fragmentTypes = st.fragmentTypes ++ added.map (fun d => d.2)) ∧
    ∀ st : DecState, (popAllVs st).vs.length = (popAllVs st).fragmentTypes.length :=
  ⟨⟨rfl, rfl⟩,
   (@reachable_invariant (initState (.ptrTo v), toks) p (.ptrTo v) rfl hreach).1,
   decodeObjectStart_vs, popAllVs_aligned⟩

/-- Witness for C10 at the nested-fragment example, two decoder steps in
(a state that holds two live stacks). -/
theorem c10_parallelPairAligned_witness :
    (stepOk (stepOk nfStart)).1.vs.length =
      (stepOk (stepOk nfStart)).1.fragmentTypes.length := by
  refine (c10_parallelPairAligned nestedFragQuery nestedFragToks _ ?_).2.1
  rw [show (initState (.ptrTo nestedFragQuery), nestedFragToks) = nfStart from rfl]
  exact Relation.ReflTransGen.tail
    (Relation.ReflTransGen.tail Relation.ReflTransGen.refl ⟨nfStart_vs_ne, rfl⟩)
    ⟨nfStep1_vs_ne, rfl⟩

end GoGraphQL
